import Mathlib

/-
Verification development for the SVG Template Field Engine:
a shallow embedding of the grammar parser (api/svg_parser.py), the
dependency and update engine (api/svg_updater.py) and the watermark
engine (api/watermark.py), together with theorems settling the frozen
claims about them.

Modelling conventions:
  - Python strings are Lean Strings; the character-level helpers below
    reimplement the exact Python primitives used by the source
    (str.split, str.strip, str.startswith, str.replace, str.title,
    str.lower, int(), float()) over List Char so that every definition
    reduces in the kernel.
  - Python int() underscore digit grouping (PEP 515) is not modelled;
    no theorem depends on it.
  - XML parsing itself is third-party library code (xml.etree / lxml);
    the embedding starts from its output: the document-order list of
    elements carrying an id attribute (parser), or the element tree
    (updater).
-/

/-- Python whitespace characters recognised by str.strip and str.split. -/
def pyWsChar (c : Char) : Bool :=
  c = ' ' || c = '\t' || c = '\n' || c = '\r' || c = '\x0b' || c = '\x0c'

/-- Python str.strip over a character list. -/
def stripL (s : List Char) : List Char :=
  ((s.dropWhile pyWsChar).reverse.dropWhile pyWsChar).reverse

/-- Helper for whitespace splitting: accumulates the current token. -/
def splitWsAux : List Char → List Char → List (List Char)
  | [], [] => []
  | [], acc => [acc.reverse]
  | c :: rest, acc =>
    if pyWsChar c then
      match acc with
      | [] => splitWsAux rest []
      | _ => acc.reverse :: splitWsAux rest []
    else splitWsAux rest (c :: acc)

/-- Python str.split with no argument: split on whitespace runs, dropping empties. -/
def pySplitWs (s : String) : List String :=
  (splitWsAux s.data []).map String.mk

/-- Helper for single-character separator splitting. -/
def splitCharAux (sep : Char) : List Char → List Char → List (List Char)
  | [], acc => [acc.reverse]
  | c :: rest, acc =>
    if c = sep then acc.reverse :: splitCharAux sep rest []
    else splitCharAux sep rest (c :: acc)

/-- Python str.split with a one-character separator (the only form the source uses). -/
def pySplitChar (s : String) (sep : Char) : List String :=
  (splitCharAux sep s.data []).map String.mk

/-- Boolean list-prefix test used to model Python str.startswith. -/
def startsL : List Char → List Char → Bool
  | [], _ => true
  | _ :: _, [] => false
  | p :: ps, c :: cs => p = c && startsL ps cs

/-- Python s.startswith(pre). -/
def strStarts (s pre : String) : Bool := startsL pre.data s.data

/-- Reducible string equality via the underlying character lists. -/
def strEq (a b : String) : Bool := a.data == b.data

/-- Helper for str.replace: fuel-indexed scan, replacing each non-overlapping
occurrence of pat from the left. The fuel is the input length; each step
consumes at least one character, so the fuel never runs out on real inputs. -/
def replAux : Nat → List Char → List Char → List Char → List Char
  | 0, s, _, _ => s
  | _ + 1, [], _, _ => []
  | f + 1, c :: rest, pat, rep =>
    if pat ≠ [] && startsL pat (c :: rest) then
      rep ++ replAux f ((c :: rest).drop pat.length) pat rep
    else c :: replAux f rest pat rep

/-- Python s.replace(pat, rep), replacing every occurrence left to right. -/
def pyReplace (s pat rep : String) : String :=
  ⟨replAux s.data.length s.data pat.data rep.data⟩

/-- Python substring membership test (pat in s). -/
def containsSubL : List Char → List Char → Bool
  | [], pat => pat.isEmpty
  | c :: rest, pat => startsL pat (c :: rest) || containsSubL rest pat

/-- Python list.index for strings (first occurrence; the source only calls it
on members, so the out-of-range ValueError path never runs). -/
def indexOfL : List String → String → Nat
  | [], _ => 0
  | y :: ys, x => if strEq y x then 0 else 1 + indexOfL ys x

/-- Boolean membership for string lists via strEq. -/
def listHasStr : List String → String → Bool
  | [], _ => false
  | y :: ys, x => strEq y x || listHasStr ys x

/-- Drops the first n characters of a string (Python s[n:]). -/
def strDrop (s : String) (n : Nat) : String := ⟨s.data.drop n⟩

/-- Accumulator-style decimal digit reader; fails on any non-digit. -/
def digitsValAux : List Char → Nat → Option Nat
  | [], acc => some acc
  | c :: rest, acc =>
    if c.isDigit then digitsValAux rest (acc * 10 + (c.toNat - 48)) else none

/-- Python int(str): strips whitespace, allows one leading sign, then a
non-empty run of decimal digits; anything else raises ValueError, modelled
as none. -/
def parseIntPy (s : String) : Option Int :=
  match stripL s.data with
  | [] => none
  | '+' :: rest =>
    if rest.isEmpty then none else (digitsValAux rest 0).map Int.ofNat
  | '-' :: rest =>
    if rest.isEmpty then none else (digitsValAux rest 0).map (fun n => -(n : Int))
  | t => (digitsValAux t 0).map Int.ofNat

/-- Helper for str.title: tracks whether the previous character was alphabetic. -/
def titleAux : List Char → Bool → List Char
  | [], _ => []
  | c :: rest, prevAlpha =>
    (if c.isAlpha then (if prevAlpha then c.toLower else c.toUpper) else c)
      :: titleAux rest c.isAlpha

/-- Python str.title over ASCII: the first letter of each alphabetic run is
uppercased, the rest lowercased. -/
def pyTitle (s : String) : String := ⟨titleAux s.data false⟩

/-- Python str.lower over ASCII. -/
def strLower (s : String) : String := ⟨s.data.map Char.toLower⟩

/-- Digit renderer for natural numbers (most significant first). -/
def natDigitsAux : Nat → Nat → List Char → List Char
  | 0, _, acc => acc
  | f + 1, n, acc =>
    if n < 10 then Char.ofNat (48 + n) :: acc
    else natDigitsAux f (n / 10) (Char.ofNat (48 + n % 10) :: acc)

/-- Decimal rendering of a natural number, as Python str() would print it. -/
def natToStr (n : Nat) : String := ⟨natDigitsAux (n + 1) n []⟩

/-- Decimal rendering of an integer, as Python str() would print it. -/
def intToStr (n : Int) : String :=
  if n < 0 then ⟨'-' :: (natToStr (-n).toNat).data⟩ else natToStr n.toNat

/-- Python runtime values flowing through the field engine: the schema and
update payloads only ever hold strings, booleans, numbers or None. -/
inductive Val where
  | s (v : String)
  | b (v : Bool)
  | i (v : Int)
  | none
deriving DecidableEq, Repr

/-- Python truthiness for the modelled value types. -/
def Val.truthy : Val → Bool
  | .s v => !v.data.isEmpty
  | .b x => x
  | .i n => n != 0
  | .none => false

/-- Python str() on a modelled value. -/
def pyStrRaw : Val → String
  | .s v => v
  | .b true => "True"
  | .b false => "False"
  | .i n => intToStr n
  | .none => "None"

/-- The Python idiom value or "" used before string conversion. -/
def pyOrEmptyStr (v : Val) : Val := if v.truthy then v else .s ""

/-
Grammar parser embedding (api/svg_parser.py, parse_svg_to_form_fields).
The function iterates over every element with an id attribute in document
order; an element is modelled by its id attribute and its text content
(el.text with None already collapsed to "", as the source does with
el.text or ""). XML well-formedness checking is ElementTree behaviour and
is outside this embedding; see the error-handling claims for discussion.
-/

/-- One SVG element as the parser sees it. -/
structure SvgEl where
  elId : String
  text : String
deriving DecidableEq, Repr

/-- One option of a select field. -/
structure SelectOption where
  value : String
  label : String
  svgElementId : String
  displayText : String
deriving DecidableEq, Repr

/-- One field descriptor, mirroring the dict built by the parser. Keys that
the source adds conditionally (trackingRole, max, dependsOn, link) are
Options; options is [] exactly when the dict has no options key. The select
field dict never carries isTrackingId; it is modelled as false there, which
no later reader distinguishes. -/
structure FieldD where
  fid : String
  name : String
  ftype : String
  svgElementId : String
  options : List SelectOption
  defaultValue : Val
  currentValue : Val
  isTrackingId : Bool
  trackingRole : Option String
  maxVal : Option Int
  dependsOn : Option String
  link : Option String
deriving DecidableEq, Repr

/-- The recognised type keyword tokens (svg_parser.py lines 101-105). -/
def keywordTypes : List String :=
  ["text", "textarea", "checkbox", "date", "upload", "number", "email",
   "tel", "gen", "password", "range", "color", "file", "status", "sign"]

/-- Scanner state for the extension-token loop (svg_parser.py lines 85-106). -/
structure ExtScan where
  maxVal : Option Int
  dependency : Option String
  ftype : String
  trackingRole : Option String
deriving DecidableEq, Repr

/-- One step of the extension-token loop over parts[1:]. The branch order and
the parts.index check mirror the source exactly. -/
def scanExt (parts : List String) (st : ExtScan) (part : String) : ExtScan :=
  if strStarts part "max_" then
    match parseIntPy (pyReplace part "max_" "") with
    | some n => { st with maxVal := some n }
    | Option.none => st
  else if strStarts part "depends_" then
    { st with dependency := some (pyReplace part "depends_" "") }
  else if strEq part "tracking_id" then
    { st with ftype := "gen" }
  else if strStarts part "track_" then
    if indexOfL parts part = parts.length - 1 then
      { st with trackingRole := some (strDrop part 6) }
    else st
  else if strStarts part "hide" || listHasStr keywordTypes part then
    { st with ftype := if strStarts part "hide" then "hide" else part }
  else st

/-- Index of the first list entry satisfying p. -/
def firstIdxWhere (p : String → Bool) : List String → Option Nat
  | [] => Option.none
  | x :: xs => if p x then some 0 else (firstIdxWhere p xs).map (· + 1)

/-- Index of the first track_ token among parts[1:] (svg_parser.py lines 73-78). -/
def firstTrackIdx (parts : List String) : Option Nat :=
  match firstIdxWhere (fun p => strStarts p "track_") (parts.drop 1) with
  | some j => some (j + 1)
  | Option.none => Option.none

/-- The track_ placement invariant: if a track_ token exists among the
extension tokens, it must sit at the last position, otherwise the element is
skipped (svg_parser.py lines 80-83). -/
def trackOk (parts : List String) : Bool :=
  match firstTrackIdx parts with
  | some i => i = parts.length - 1
  | Option.none => true

/-- Builds the field dict for a non-select element (svg_parser.py lines 70-140). -/
def mkNonSelectField (elId text : String) : FieldD :=
  let parts := pySplitChar elId '.'
  let baseId := parts.headD ""
  let name := pyTitle (pyReplace baseId "_" " ")
  let textContent : String := ⟨stripL text.data⟩
  let url : Option String :=
    (parts.find? (fun p => strStarts p "link_")).map (fun lp => strDrop lp 5)
  let sc := (parts.drop 1).foldl (scanExt parts)
    { maxVal := Option.none, dependency := Option.none, ftype := baseId,
      trackingRole := Option.none }
  let defaultValue : Val :=
    if strEq sc.ftype "checkbox" then .b false
    else if strEq sc.ftype "hide" then
      .b (strEq ((parts.find? (fun p => strStarts p "hide")).getD "hide") "hide_checked")
    else .s textContent
  { fid := baseId, name := name, ftype := sc.ftype, svgElementId := elId,
    options := [],
    defaultValue := defaultValue, currentValue := defaultValue,
    isTrackingId := listHasStr parts "tracking_id",
    trackingRole :=
      match sc.trackingRole with
      | some r => if r.data.isEmpty then Option.none else some r
      | Option.none => Option.none,
    maxVal := sc.maxVal,
    dependsOn :=
      match sc.dependency with
      | some d => if d.data.isEmpty then Option.none else some d
      | Option.none => Option.none,
    link :=
      match url with
      | some u => if u.data.isEmpty then Option.none else some u
      | Option.none => Option.none }

/-- Parser fold state: the ordered field list and the per-base select-option
map (select_options_map in the source). -/
structure PState where
  fields : List FieldD
  selMap : List (String × List SelectOption)
deriving DecidableEq, Repr

/-- Lookup in the select-option map. -/
def selMapGet (m : List (String × List SelectOption)) (k : String) :
    Option (List SelectOption) :=
  (m.find? (fun kv => strEq kv.1 k)).map (·.2)

/-- Insert-or-replace in the select-option map, keeping insertion order. -/
def selMapSet (m : List (String × List SelectOption)) (k : String)
    (v : List SelectOption) : List (String × List SelectOption) :=
  match m with
  | [] => [(k, v)]
  | (a, b) :: rest =>
    if strEq a k then (a, v) :: rest else (a, b) :: selMapSet rest k v

/-- Mirrors the select branch update loop (svg_parser.py lines 60-67): the
first field in the list whose id equals base gets the accumulated options,
and, when its defaultValue is falsy and options are present, the first
option value as default and current value. -/
def updateFirstFieldOpts : List FieldD → String → List SelectOption → List FieldD
  | [], _, _ => []
  | f :: rest, base, opts =>
    if strEq f.fid base then
      (match opts, f.defaultValue.truthy with
       | o :: _, false =>
         { f with options := opts, defaultValue := .s o.value,
                  currentValue := .s o.value }
       | _, _ => { f with options := opts }) :: rest
    else f :: updateFirstFieldOpts rest base opts

/-- One iteration of the parser main loop over a single element. -/
def parseStep (st : PState) (el : SvgEl) : PState :=
  let elId := el.elId
  let parts := pySplitChar elId '.'
  let baseId := parts.headD ""
  let name := pyTitle (pyReplace baseId "_" " ")
  let textContent : String := ⟨stripL el.text.data⟩
  match parts.find? (fun p => strStarts p "select_") with
  | some selectPart =>
    let label := pyReplace (strDrop selectPart 7) "_" " "
    let opt : SelectOption :=
      { value := elId, label := label, svgElementId := elId,
        displayText := if !textContent.data.isEmpty then textContent else label }
    let st1 : PState :=
      match selMapGet st.selMap baseId with
      | some _ => st
      | Option.none =>
        { fields := st.fields ++
            [{ fid := baseId, name := name, ftype := "select",
               svgElementId := elId, options := [],
               defaultValue := .s "", currentValue := .s "",
               isTrackingId := false, trackingRole := Option.none,
               maxVal := Option.none, dependsOn := Option.none,
               link := Option.none }],
          selMap := selMapSet st.selMap baseId [] }
    let newOpts := (selMapGet st1.selMap baseId).getD [] ++ [opt]
    { fields := updateFirstFieldOpts st1.fields baseId newOpts,
      selMap := selMapSet st1.selMap baseId newOpts }
  | Option.none =>
    if trackOk parts then
      { st with fields := st.fields ++ [mkNonSelectField elId el.text] }
    else st

/-- Full parser fold over the document-order element list. -/
def parseState (els : List SvgEl) : PState :=
  els.foldl parseStep { fields := [], selMap := [] }

/-- parse_svg_to_form_fields: the ordered field schema of a document, given
its document-order list of id-carrying elements. -/
def parse_svg_to_form_fields (els : List SvgEl) : List FieldD :=
  (parseState els).fields

/-
Supporting lemmas about the helpers, used by the parser claims.
-/

theorem strEq_refl (x : String) : strEq x x = true := by
  simp [strEq]

theorem strEq_eq_true_iff {a b : String} : strEq a b = true ↔ a = b := by
  constructor
  · intro h
    have hdata : a.data = b.data := by simpa [strEq] using h
    cases a; cases b; exact congrArg String.mk hdata
  · rintro rfl; exact strEq_refl a

theorem listHasStr_of_mem {l : List String} {x : String} (h : x ∈ l) :
    listHasStr l x = true := by
  induction l with
  | nil => cases h
  | cons a t ih =>
    rcases List.mem_cons.mp h with h1 | h2
    · subst h1; simp [listHasStr, strEq_refl]
    · simp [listHasStr, ih h2]

theorem parseState_append_one (els : List SvgEl) (el : SvgEl) :
    parseState (els ++ [el]) = parseStep (parseState els) el := by
  simp [parseState, List.foldl_append]

theorem parseStep_nonselect (st : PState) (el : SvgEl)
    (hsel : (pySplitChar el.elId '.').find? (fun p => strStarts p "select_")
      = Option.none) :
    parseStep st el =
      if trackOk (pySplitChar el.elId '.') then
        { st with fields := st.fields ++ [mkNonSelectField el.elId el.text] }
      else st := by
  simp [parseStep, hsel]

theorem scanExt_tracking_id (parts : List String) (st : ExtScan) :
    scanExt parts st "tracking_id" = { st with ftype := "gen" } := by
  simp [scanExt,
        show strStarts "tracking_id" "max_" = false from rfl,
        show strStarts "tracking_id" "depends_" = false from rfl,
        show strEq "tracking_id" "tracking_id" = true from rfl]

theorem scanExt_keeps_ftype_gen (parts : List String) (q : String) (st : ExtScan)
    (h : st.ftype = "gen")
    (h1 : strStarts q "hide" = false) (h2 : listHasStr keywordTypes q = false) :
    (scanExt parts st q).ftype = "gen" := by
  unfold scanExt
  cases c1 : strStarts q "max_" with
  | true => cases hp : parseIntPy (pyReplace q "max_" "") <;> simp [c1, hp, h]
  | false =>
    cases c2 : strStarts q "depends_" with
    | true => simp [c1, c2, h]
    | false =>
      cases c3 : strEq q "tracking_id" with
      | true => simp [c1, c2, c3]
      | false =>
        cases c4 : strStarts q "track_" with
        | true =>
          by_cases c5 : indexOfL parts q = parts.length - 1 <;> simp [c1, c2, c3, c4, c5, h]
        | false => simp [c1, c2, c3, c4, h1, h2, h]

theorem foldl_scanExt_keeps_gen (parts : List String) (post : List String) :
    ∀ st : ExtScan, st.ftype = "gen" →
    (∀ q ∈ post, strStarts q "hide" = false ∧ listHasStr keywordTypes q = false) →
    (post.foldl (scanExt parts) st).ftype = "gen" := by
  induction post with
  | nil => intro st h _; simpa using h
  | cons q t ih =>
    intro st h hq
    exact ih _ (scanExt_keeps_ftype_gen parts q st h (hq q (by simp)).1 (hq q (by simp)).2)
      (fun x hx => hq x (by simp [hx]))

theorem mkNonSelectField_gen (elId text : String) (base : String)
    (mid post : List String)
    (hsplit : pySplitChar elId '.' = base :: (mid ++ "tracking_id" :: post))
    (hpost : ∀ q ∈ post, strStarts q "hide" = false ∧ listHasStr keywordTypes q = false) :
    (mkNonSelectField elId text).ftype = "gen"
    ∧ (mkNonSelectField elId text).isTrackingId = true := by
  constructor
  · simp only [mkNonSelectField]
    rw [hsplit]
    simp only [List.drop_succ_cons, List.drop_zero]
    rw [show (mid ++ "tracking_id" :: post) = (mid ++ ["tracking_id"]) ++ post by simp,
        List.foldl_append, List.foldl_append, List.foldl_cons, List.foldl_nil,
        scanExt_tracking_id]
    exact foldl_scanExt_keeps_gen _ post _ rfl hpost
  · simp only [mkNonSelectField]
    rw [hsplit]
    simp [listHasStr_of_mem (show "tracking_id" ∈ base :: (mid ++ "tracking_id" :: post) by simp)]

theorem mkNonSelectField_link (elId text : String) (parts : List String) (u : String)
    (hsplit : pySplitChar elId '.' = parts)
    (hfind : parts.find? (fun p => strStarts p "link_") = some ("link_" ++ u))
    (hu : u.data ≠ []) :
    (mkNonSelectField elId text).link = some u := by
  simp only [mkNonSelectField]
  rw [hsplit, hfind]
  simp [hu, show strDrop ("link_" ++ u) 5 = u from rfl]

/-- C3 (amended): a tracking_id token always marks the field as a tracking
id, and the field kind is gen exactly when no type keyword or hide token
follows it in the id chain; a later token overrides the kind because the
extension scan assigns the type in token order. -/
theorem tracking_id_kind_rule :
    ∀ (els : List SvgEl) (el : SvgEl) (base : String) (mid post : List String),
      pySplitChar el.elId '.' = base :: (mid ++ "tracking_id" :: post) →
      (∀ q ∈ base :: (mid ++ "tracking_id" :: post), strStarts q "select_" = false) →
      trackOk (base :: (mid ++ "tracking_id" :: post)) = true →
      (∀ q ∈ post, strStarts q "hide" = false ∧ listHasStr keywordTypes q = false) →
      (parseState (els ++ [el])).fields
        = (parseState els).fields ++ [mkNonSelectField el.elId el.text]
      ∧ (mkNonSelectField el.elId el.text).ftype = "gen"
      ∧ (mkNonSelectField el.elId el.text).isTrackingId = true := by
  intro els el base mid post hsplit hsel htr hpost
  have hgen := mkNonSelectField_gen el.elId el.text base mid post hsplit hpost
  refine ⟨?_, hgen.1, hgen.2⟩
  rw [parseState_append_one]
  have hselN : (pySplitChar el.elId '.').find? (fun p => strStarts p "select_")
      = Option.none := by
    rw [hsplit]
    exact List.find?_eq_none.mpr (fun x hx => by simp [hsel x hx])
  rw [parseStep_nonselect _ _ hselN, hsplit, htr]
  simp

theorem tracking_id_kind_rule_witness :
    (parseState ([] ++ [⟨"a.text.tracking_id", ""⟩])).fields
      = (parseState []).fields ++ [mkNonSelectField "a.text.tracking_id" ""]
    ∧ (mkNonSelectField "a.text.tracking_id" "").ftype = "gen"
    ∧ (mkNonSelectField "a.text.tracking_id" "").isTrackingId = true :=
  tracking_id_kind_rule [] ⟨"a.text.tracking_id", ""⟩ "a" ["text"] []
    (by decide) (by decide) (by decide) (by decide)

/-- C3 counterexample: in a.tracking_id.text the later text token wins, so
the parsed kind is text rather than gen even though is_tracking_id is
true, refuting order independence. -/
theorem tracking_id_overridden_cex :
    listHasStr (pySplitChar "a.tracking_id.text" '.') "tracking_id" = true
    ∧ (parse_svg_to_form_fields [⟨"a.tracking_id.text", ""⟩]).map
        (fun f => (f.ftype, f.isTrackingId)) = [("text", true)]
    ∧ ("text" : String) ≠ "gen" :=
  ⟨by decide, by decide, by decide⟩

/-- C2 (amended): a link_ token yields a link equal to the remainder of
the dot-split token in which link_ appears, not the remainder of the raw
id, so a dot inside the URL truncates it. -/
theorem link_token_value_rule :
    ∀ (els : List SvgEl) (el : SvgEl) (parts : List String) (u : String),
      pySplitChar el.elId '.' = parts →
      (∀ q ∈ parts, strStarts q "select_" = false) →
      trackOk parts = true →
      parts.find? (fun p => strStarts p "link_") = some ("link_" ++ u) →
      u.data ≠ [] →
      (parseState (els ++ [el])).fields
        = (parseState els).fields ++ [mkNonSelectField el.elId el.text]
      ∧ (mkNonSelectField el.elId el.text).link = some u := by
  intro els el parts u hsplit hsel htr hfind hu
  refine ⟨?_, mkNonSelectField_link el.elId el.text parts u hsplit hfind hu⟩
  rw [parseState_append_one]
  have hselN : (pySplitChar el.elId '.').find? (fun p => strStarts p "select_")
      = Option.none := by
    rw [hsplit]
    exact List.find?_eq_none.mpr (fun x hx => by simp [hsel x hx])
  rw [parseStep_nonselect _ _ hselN, hsplit, htr]
  simp

theorem link_token_value_rule_witness :
    (parseState ([] ++ [⟨"a.link_http://ex", ""⟩])).fields
      = (parseState []).fields ++ [mkNonSelectField "a.link_http://ex" ""]
    ∧ (mkNonSelectField "a.link_http://ex" "").link = some "http://ex" :=
  link_token_value_rule [] ⟨"a.link_http://ex", ""⟩ ["a", "link_http://ex"]
    "http://ex" (by decide) (by decide) (by decide) (by decide) (by decide)

/-- C2 counterexample: the id a.link_http://ex.com parses to the link
http://ex, truncated at the embedded dot, not http://ex.com. -/
theorem link_embedded_dot_cex :
    (parse_svg_to_form_fields [⟨"a.link_http://ex.com", ""⟩]).map FieldD.link
      = [some "http://ex"]
    ∧ (some "http://ex" : Option String) ≠ some "http://ex.com" :=
  ⟨by decide, by decide⟩

/-
Dependency and update engine embedding (api/svg_updater.py).
The pure helpers _extract_word, _extract_chars and _extract_from_dependency
are modelled first. The dependency expression regex
  (.+)\[(w|ch)(.+)\]$  anchored at the start
is implemented by depFind: the greedy (.+) selects the rightmost opening
bracket whose remainder matches, backtracking leftward when the remainder
does not; the dot metacharacter never matches a newline, and the dollar
anchor also matches just before one trailing newline, both reproduced in
matchDepRegex.
-/

/-- The extraction kind captured by the second regex group. -/
inductive DepKind where
  | w
  | ch
deriving DecidableEq, Repr

/-- Checks that a candidate tail has the shape pattern ++ [rbracket] with a
non-empty pattern, returning the pattern. -/
def depTail (tail : List Char) : Option (List Char) :=
  match tail.getLast? with
  | some ']' => if 2 ≤ tail.length then some tail.dropLast else none
  | _ => none

/-- Finds the rightmost opening bracket followed by w or ch and a non-empty
pattern terminated by the final closing bracket, returning (group1 suffix at
this level, kind, pattern). Trying the recursive call first makes the
rightmost viable bracket win, exactly like the greedy leading group. -/
def depFind : List Char → Option (List Char × DepKind × List Char)
  | [] => Option.none
  | c :: rest =>
    match depFind rest with
    | some (g, k, p) => some (c :: g, k, p)
    | Option.none =>
      if c = '[' then
        match rest with
        | 'w' :: tail =>
          match depTail tail with
          | some p => some ([], DepKind.w, p)
          | Option.none => Option.none
        | 'c' :: 'h' :: tail =>
          match depTail tail with
          | some p => some ([], DepKind.ch, p)
          | Option.none => Option.none
        | _ => Option.none
      else Option.none

/-- re.match of the dependency expression pattern against the whole string. -/
def matchDepRegex (dep : String) : Option (String × DepKind × String) :=
  let t := if dep.data.getLast? = some '\n' then dep.data.dropLast else dep.data
  if t.any (fun c => c = '\n') then Option.none
  else
    match depFind t with
    | some (g, k, p) => if g.isEmpty then Option.none else some (⟨g⟩, k, ⟨p⟩)
    | Option.none => Option.none

/-- Python dict.get(name, "") over the field_values association list. -/
def fvGet : List (String × Val) → String → Val
  | [], _ => Val.s ""
  | kv :: rest, k => if strEq kv.1 k then kv.2 else fvGet rest k

/-- The inline image test (svg_updater.py lines 24-26 and 34-36): only string
values can be data or blob URIs. -/
def isDataUri (v : Val) : Bool :=
  match v with
  | .s t => strStarts t "data:image/" || strStarts t "blob:"
  | _ => false

/-- Extracts the raw string of a Val known to be a string (data URI return). -/
def dataStr : Val → String
  | .s t => t
  | _ => ""

/-- svg_updater._extract_word. -/
def _extract_word (text pattern : String) : String :=
  let words := pySplitWs ⟨stripL text.data⟩
  match parseIntPy pattern with
  | Option.none => ""
  | some n =>
    let idx := n - 1
    if 0 ≤ idx ∧ idx < (words.length : Int) then words.getD idx.toNat "" else ""

/-- Python slice s[a:b] over a character list: negative indices count from
the end and both bounds clamp to the valid range. -/
def pySlice (s : List Char) (a b : Int) : List Char :=
  let n : Int := s.length
  let a2 := if a < 0 then max (a + n) 0 else min a n
  let b2 := if b < 0 then max (b + n) 0 else min b n
  if a2 < b2 then (s.take b2.toNat).drop a2.toNat else []

/-- svg_updater._extract_chars. Python int(part.strip()) equals parseIntPy
part because int() itself strips surrounding whitespace. -/
def _extract_chars (text pattern : String) : String :=
  if pattern.data.contains ',' then
    let indices := (pySplitChar pattern ',').filterMap
      (fun part => (parseIntPy part).map (fun n => n - 1))
    ⟨(indices.filter (fun i => 0 ≤ i ∧ i < (text.data.length : Int))).map
      (fun i => text.data.getD i.toNat ' ')⟩
  else if pattern.data.contains '-' then
    match pySplitChar pattern '-' with
    | [a, b] =>
      match parseIntPy a, parseIntPy b with
      | some start, some stop => ⟨pySlice text.data (start - 1) stop⟩
      | _, _ => ""
    | _ => ""
  else
    match parseIntPy pattern with
    | Option.none => ""
    | some n =>
      let idx := n - 1
      if 0 ≤ idx ∧ idx < (text.data.length : Int) then
        ⟨[text.data.getD idx.toNat ' ']⟩
      else ""

/-- svg_updater._extract_from_dependency. -/
def _extract_from_dependency (dep : String) (fv : List (String × Val)) : String :=
  match matchDepRegex dep with
  | some (fieldName, k, pattern) =>
    let fieldValue := fvGet fv fieldName
    if isDataUri fieldValue then dataStr fieldValue
    else
      let stringValue := pyStrRaw (pyOrEmptyStr fieldValue)
      match k with
      | DepKind.w => _extract_word stringValue pattern
      | DepKind.ch => _extract_chars stringValue pattern
  | Option.none =>
    let fieldValue := fvGet fv dep
    if isDataUri fieldValue then dataStr fieldValue
    else pyStrRaw (pyOrEmptyStr fieldValue)

theorem depFind_none_of_no_bracket (l : List Char) (h : '[' ∉ l) :
    depFind l = Option.none := by
  induction l with
  | nil => rfl
  | cons c rest ih =>
    have hc : c ≠ '[' := fun hh => h (hh ▸ List.mem_cons_self c rest)
    have hr := ih (fun hm => h (List.mem_cons_of_mem c hm))
    simp [depFind, hr, hc]

theorem depFind_append_some (pre l : List Char) (g p : List Char) (k : DepKind)
    (h : depFind l = some (g, k, p)) :
    depFind (pre ++ l) = some (pre ++ g, k, p) := by
  induction pre with
  | nil => simpa using h
  | cons c t ih => simp [depFind, ih]

theorem depTail_concat (ks : List Char) (hne : ks ≠ []) :
    depTail (ks ++ [']']) = some ks := by
  have hpos : 0 < ks.length := List.length_pos.mpr hne
  have h2 : 2 ≤ (ks ++ [']']).length := by simp; omega
  simp [depTail, List.getLast?_concat, List.dropLast_concat, h2, hne]

theorem depFind_w (ks : List Char) (h : '[' ∉ ks) (hne : ks ≠ []) :
    depFind ('[' :: 'w' :: (ks ++ [']'])) = some ([], DepKind.w, ks) := by
  have hn : depFind ('w' :: (ks ++ [']'])) = Option.none := by
    apply depFind_none_of_no_bracket
    intro hmem
    rcases List.mem_cons.mp hmem with h1 | h2
    · exact absurd h1 (by decide)
    rcases List.mem_append.mp h2 with h3 | h4
    · exact h h3
    · exact absurd (List.mem_singleton.mp h4) (by decide)
  rw [show depFind ('[' :: 'w' :: (ks ++ [']']))
      = (match depFind ('w' :: (ks ++ [']'])) with
         | some (g, k, p) => some ('[' :: g, k, p)
         | Option.none =>
           (match depTail (ks ++ [']']) with
            | some p => some ([], DepKind.w, p)
            | Option.none => Option.none)) from rfl]
  rw [hn, depTail_concat ks hne]

theorem depFind_ch (ks : List Char) (h : '[' ∉ ks) (hne : ks ≠ []) :
    depFind ('[' :: 'c' :: 'h' :: (ks ++ [']'])) = some ([], DepKind.ch, ks) := by
  have hn : depFind ('c' :: 'h' :: (ks ++ [']'])) = Option.none := by
    apply depFind_none_of_no_bracket
    intro hmem
    rcases List.mem_cons.mp hmem with h1 | h2
    · exact absurd h1 (by decide)
    rcases List.mem_cons.mp h2 with h2a | h2b
    · exact absurd h2a (by decide)
    rcases List.mem_append.mp h2b with h3 | h4
    · exact h h3
    · exact absurd (List.mem_singleton.mp h4) (by decide)
  rw [show depFind ('[' :: 'c' :: 'h' :: (ks ++ [']']))
      = (match depFind ('c' :: 'h' :: (ks ++ [']'])) with
         | some (g, k, p) => some ('[' :: g, k, p)
         | Option.none =>
           (match depTail (ks ++ [']']) with
            | some p => some ([], DepKind.ch, p)
            | Option.none => Option.none)) from rfl]
  rw [hn, depTail_concat ks hne]

theorem matchDepRegex_w (nm ks : String) (hnm : nm.data ≠ []) (h1 : '\n' ∉ nm.data)
    (h2 : '\n' ∉ ks.data) (h3 : '[' ∉ ks.data) (hksne : ks.data ≠ []) :
    matchDepRegex (nm ++ "[w" ++ ks ++ "]") = some (nm, DepKind.w, ks) := by
  have hdata : (nm ++ "[w" ++ ks ++ "]").data
      = nm.data ++ '[' :: 'w' :: (ks.data ++ [']']) := by
    have hr : (nm ++ "[w" ++ ks ++ "]").data
        = ((nm.data ++ ['[', 'w']) ++ ks.data) ++ [']'] := rfl
    rw [hr]; simp
  have hlast : (nm.data ++ '[' :: 'w' :: (ks.data ++ [']'])).getLast? = some ']' := by
    have : nm.data ++ '[' :: 'w' :: (ks.data ++ [']'])
        = (nm.data ++ '[' :: 'w' :: ks.data) ++ [']'] := by simp
    rw [this, List.getLast?_concat]
  have hany : (nm.data ++ '[' :: 'w' :: (ks.data ++ [']'])).any (fun c => c = '\n') = false := by
    simp only [List.any_append, List.any_cons, List.any_eq_false, Bool.or_eq_false_iff]
    refine ⟨fun c hc => by simp; exact fun hh => h1 (hh ▸ hc), by decide, by decide,
      fun c hc => by simp; exact fun hh => h2 (hh ▸ hc), by decide⟩
  have hfind : depFind (nm.data ++ '[' :: 'w' :: (ks.data ++ [']']))
      = some (nm.data, DepKind.w, ks.data) := by
    have := depFind_append_some nm.data ('[' :: 'w' :: (ks.data ++ [']']))
      [] ks.data DepKind.w (depFind_w ks.data h3 hksne)
    simpa using this
  simp only [matchDepRegex, hdata, hlast, hany]
  simp [hfind, hnm]
  exact ⟨h1, h2⟩

theorem matchDepRegex_ch (nm ps : String) (hnm : nm.data ≠ []) (h1 : '\n' ∉ nm.data)
    (h2 : '\n' ∉ ps.data) (h3 : '[' ∉ ps.data) (hpsne : ps.data ≠ []) :
    matchDepRegex (nm ++ "[ch" ++ ps ++ "]") = some (nm, DepKind.ch, ps) := by
  have hdata : (nm ++ "[ch" ++ ps ++ "]").data
      = nm.data ++ '[' :: 'c' :: 'h' :: (ps.data ++ [']']) := by
    have hr : (nm ++ "[ch" ++ ps ++ "]").data
        = ((nm.data ++ ['[', 'c', 'h']) ++ ps.data) ++ [']'] := rfl
    rw [hr]; simp
  have hlast : (nm.data ++ '[' :: 'c' :: 'h' :: (ps.data ++ [']'])).getLast? = some ']' := by
    have : nm.data ++ '[' :: 'c' :: 'h' :: (ps.data ++ [']'])
        = (nm.data ++ '[' :: 'c' :: 'h' :: ps.data) ++ [']'] := by simp
    rw [this, List.getLast?_concat]
  have hany : (nm.data ++ '[' :: 'c' :: 'h' :: (ps.data ++ [']'])).any
      (fun c => c = '\n') = false := by
    simp only [List.any_append, List.any_cons, List.any_eq_false, Bool.or_eq_false_iff]
    refine ⟨fun c hc => by simp; exact fun hh => h1 (hh ▸ hc), by decide, by decide, by decide,
      fun c hc => by simp; exact fun hh => h2 (hh ▸ hc), by decide⟩
  have hfind : depFind (nm.data ++ '[' :: 'c' :: 'h' :: (ps.data ++ [']']))
      = some (nm.data, DepKind.ch, ps.data) := by
    have := depFind_append_some nm.data ('[' :: 'c' :: 'h' :: (ps.data ++ [']']))
      [] ps.data DepKind.ch (depFind_ch ps.data h3 hpsne)
    simpa using this
  simp only [matchDepRegex, hdata, hlast, hany]
  simp [hfind, hnm]
  exact ⟨h1, h2⟩

theorem splitWsAux_all_ws (w : List Char) (h : ∀ c ∈ w, pyWsChar c = true) :
    splitWsAux w [] = [] := by
  induction w with
  | nil => rfl
  | cons c t ih =>
    simp [splitWsAux, h c (by simp)]
    exact ih (fun x hx => h x (by simp [hx]))

theorem splitWsAux_append_ws (w : List Char) (h : ∀ c ∈ w, pyWsChar c = true) :
    ∀ (t acc : List Char), splitWsAux (t ++ w) acc = splitWsAux t acc := by
  intro t
  induction t with
  | nil =>
    intro acc
    cases acc with
    | nil => simpa using splitWsAux_all_ws w h
    | cons a as =>
      cases w with
      | nil => rfl
      | cons c ws =>
        have hc := h c (by simp)
        have hws : splitWsAux ws [] = [] :=
          splitWsAux_all_ws ws (fun x hx => h x (by simp [hx]))
        simp [splitWsAux, hc, hws]
  | cons c t ih =>
    intro acc
    cases hc : pyWsChar c with
    | true =>
      cases acc with
      | nil => simpa [splitWsAux, hc] using ih []
      | cons a as => simpa [splitWsAux, hc] using ih []
    | false => simpa [splitWsAux, hc] using ih (c :: acc)

theorem splitWsAux_dropWhile (s : List Char) :
    splitWsAux (s.dropWhile pyWsChar) [] = splitWsAux s [] := by
  induction s with
  | nil => rfl
  | cons c t ih =>
    cases hc : pyWsChar c with
    | true => simpa [List.dropWhile_cons, hc, splitWsAux] using ih
    | false => simp [List.dropWhile_cons, hc]

theorem rev_strip_decomp (l : List Char) (p : Char → Bool) :
    l = (l.reverse.dropWhile p).reverse ++ (l.reverse.takeWhile p).reverse := by
  conv_rhs => rw [← List.reverse_append]
  rw [List.takeWhile_append_dropWhile, List.reverse_reverse]

theorem pySplitWs_strip (s : String) : pySplitWs ⟨stripL s.data⟩ = pySplitWs s := by
  unfold pySplitWs stripL
  congr 1
  rw [← splitWsAux_dropWhile s.data]
  conv_rhs => rw [rev_strip_decomp (s.data.dropWhile pyWsChar) pyWsChar]
  rw [splitWsAux_append_ws _ (fun c hc => List.mem_takeWhile_imp (List.mem_reverse.mp hc))]

theorem pyStrRaw_orEmpty_s (V : String) : pyStrRaw (pyOrEmptyStr (Val.s V)) = V := by
  unfold pyOrEmptyStr Val.truthy
  cases hV : V.data.isEmpty with
  | true =>
    have : V = "" := by
      cases V with
      | mk l => cases l with
        | nil => rfl
        | cons a b => simp at hV
    simp [hV, this, pyStrRaw]
  | false => simp [hV, pyStrRaw]

theorem pySlice_nonneg (s : List Char) (a b : Int) (ha : 0 ≤ a) (hb : 0 ≤ b) :
    pySlice s a b = (s.drop a.toNat).take (b - a).toNat := by
  unfold pySlice
  have hna : ¬ (a < 0) := by omega
  have hnb : ¬ (b < 0) := by omega
  simp only [hna, hnb, if_false]
  by_cases hab : min a (s.length : Int) < min b (s.length : Int)
  · rw [if_pos hab]
    by_cases hbn : b ≤ (s.length : Int)
    · have hmb : min b (s.length : Int) = b := by omega
      have hma : min a (s.length : Int) = a := by omega
      rw [hma, hmb]
      rw [List.drop_take]
      congr 1
      omega
    · have hmb : min b (s.length : Int) = (s.length : Int) := by omega
      have hma : min a (s.length : Int) = a := by omega
      rw [hma, hmb]
      rw [show ((s.length : Int).toNat) = s.length by omega]
      rw [List.take_of_length_le (le_refl _)]
      rw [List.take_of_length_le]
      have : (s.drop a.toNat).length = s.length - a.toNat := List.length_drop a.toNat s
      omega
  · rw [if_neg hab]
    have hcase : (s.length : Int) ≤ a ∨ b ≤ a := by omega
    rcases hcase with h1 | h2
    · rw [List.drop_eq_nil_of_le (by omega), List.take_nil]
    · have : (b - a).toNat = 0 := by omega
      rw [this, List.take_zero]

theorem chList_pipeline (parts : List String) (s : List Char) :
    ((parts.filterMap (fun part => (parseIntPy part).map (fun n => n - 1))).filter
        (fun i => 0 ≤ i ∧ i < (s.length : Int))).map (fun i => s.getD i.toNat ' ')
      = parts.filterMap (fun part => (parseIntPy part).bind
          (fun K => if 1 ≤ K ∧ K ≤ (s.length : Int) then
            some (s.getD (K - 1).toNat ' ') else Option.none)) := by
  induction parts with
  | nil => rfl
  | cons p t ih =>
    cases hp : parseIntPy p with
    | none =>
      rw [@List.filterMap_cons_none _ _ (fun part => (parseIntPy part).map (fun n => n - 1))
            p t (by show (parseIntPy p).map (fun n => n - 1) = Option.none; rw [hp]; rfl),
          @List.filterMap_cons_none _ _ (fun part => (parseIntPy part).bind
            (fun K => if 1 ≤ K ∧ K ≤ (s.length : Int) then
              some (s.getD (K - 1).toNat ' ') else Option.none)) p t
            (by show (parseIntPy p).bind _ = Option.none; rw [hp]; rfl)]
      exact ih
    | some K =>
      by_cases hK : 1 ≤ K ∧ K ≤ (s.length : Int)
      · have hcond : 0 ≤ K - 1 ∧ K - 1 < (s.length : Int) := by omega
        rw [@List.filterMap_cons_some _ _ (fun part => (parseIntPy part).map (fun n => n - 1))
              p t (K - 1) (by show (parseIntPy p).map (fun n => n - 1) = some (K - 1); rw [hp]; rfl),
            @List.filterMap_cons_some _ _ (fun part => (parseIntPy part).bind
              (fun K => if 1 ≤ K ∧ K ≤ (s.length : Int) then
                some (s.getD (K - 1).toNat ' ') else Option.none)) p t (s.getD (K - 1).toNat ' ')
              (by show (parseIntPy p).bind _ = some (s.getD (K - 1).toNat ' ')
                  rw [hp]
                  show (if 1 ≤ K ∧ K ≤ (s.length : Int) then _ else _) = _
                  rw [if_pos hK]),
            List.filter_cons_of_pos (by exact decide_eq_true hcond),
            List.map_cons, ih]
      · have hcond : ¬ (0 ≤ K - 1 ∧ K - 1 < (s.length : Int)) := by omega
        rw [@List.filterMap_cons_some _ _ (fun part => (parseIntPy part).map (fun n => n - 1))
              p t (K - 1) (by show (parseIntPy p).map (fun n => n - 1) = some (K - 1); rw [hp]; rfl),
            @List.filterMap_cons_none _ _ (fun part => (parseIntPy part).bind
              (fun K => if 1 ≤ K ∧ K ≤ (s.length : Int) then
                some (s.getD (K - 1).toNat ' ') else Option.none)) p t
              (by show (parseIntPy p).bind _ = Option.none
                  rw [hp]
                  show (if 1 ≤ K ∧ K ≤ (s.length : Int) then _ else _) = _
                  rw [if_neg hK]),
            List.filter_cons_of_neg (by simpa using hcond)]
        exact ih

theorem splitCharAux_no_sep (sep : Char) (l : List Char)
    (hl : ∀ c ∈ l, ¬ c = sep) :
    ∀ acc, splitCharAux sep l acc = [acc.reverse ++ l] := by
  induction l with
  | nil => intro acc; simp [splitCharAux]
  | cons c t ih =>
    intro acc
    have hc : ¬ (c = sep) := hl c (by simp)
    simp [splitCharAux, hc, ih (fun x hx => hl x (by simp [hx]))]

theorem parseIntPy_nonempty {s : String} {K : Int} (h : parseIntPy s = some K) :
    s.data ≠ [] := by
  intro hd
  cases s with
  | mk l =>
    simp at hd
    subst hd
    simp [parseIntPy, stripL] at h

/-- C5: dependency extraction against the anchored greedy regex: name[wK]
selects the K-th whitespace-separated word of the stripped source value,
name[chA-B] the 1-based inclusive character range A..B, and a comma list
name[chK1,K2,...] concatenates the in-range listed characters. -/
theorem dependency_extraction_rule :
    (∀ (fv : List (String × Val)) (nm V ks : String) (K : Int),
       fvGet fv nm = Val.s V → isDataUri (Val.s V) = false →
       nm.data ≠ [] → '\n' ∉ nm.data → '\n' ∉ ks.data → '[' ∉ ks.data →
       parseIntPy ks = some K → 1 ≤ K →
       _extract_from_dependency (nm ++ "[w" ++ ks ++ "]") fv
         = (pySplitWs V).getD (K - 1).toNat "")
  ∧ (∀ (fv : List (String × Val)) (nm V ps as bs : String) (A B : Int),
       fvGet fv nm = Val.s V → isDataUri (Val.s V) = false →
       nm.data ≠ [] → '\n' ∉ nm.data → '\n' ∉ ps.data → '[' ∉ ps.data →
       ps.data ≠ [] →
       ps.data.contains ',' = false →
       pySplitChar ps '-' = [as, bs] →
       parseIntPy as = some A → parseIntPy bs = some B → 1 ≤ A → 1 ≤ B →
       _extract_from_dependency (nm ++ "[ch" ++ ps ++ "]") fv
         = ⟨(V.data.drop (A - 1).toNat).take (B - A + 1).toNat⟩)
  ∧ (∀ (fv : List (String × Val)) (nm V ps : String) (parts : List String),
       fvGet fv nm = Val.s V → isDataUri (Val.s V) = false →
       nm.data ≠ [] → '\n' ∉ nm.data → '\n' ∉ ps.data → '[' ∉ ps.data →
       ps.data ≠ [] → ps.data.contains ',' = true →
       pySplitChar ps ',' = parts →
       _extract_from_dependency (nm ++ "[ch" ++ ps ++ "]") fv
         = ⟨parts.filterMap (fun part => (parseIntPy part).bind
             (fun K => if 1 ≤ K ∧ K ≤ (V.data.length : Int) then
               some (V.data.getD (K - 1).toNat ' ') else Option.none))⟩) := by
  refine ⟨?_, ?_, ?_⟩
  · intro fv nm V ks K hfv hdata hnm h1 h2 h3 hK hK1
    have hm := matchDepRegex_w nm ks hnm h1 h2 h3 (parseIntPy_nonempty hK)
    simp only [_extract_from_dependency, hm, hfv, hdata, Bool.false_eq_true, if_false]
    rw [pyStrRaw_orEmpty_s]
    unfold _extract_word
    rw [pySplitWs_strip V, hK]
    by_cases hlt : K - 1 < ((pySplitWs V).length : Int)
    · have hc : 0 ≤ K - 1 ∧ K - 1 < ((pySplitWs V).length : Int) := ⟨by omega, hlt⟩
      simp [hc]
    · have hc : ¬ (0 ≤ K - 1 ∧ K - 1 < ((pySplitWs V).length : Int)) :=
        fun hcc => hlt hcc.2
      simp only [hc, if_false]
      rw [List.getD_eq_default]
      omega
  · intro fv nm V ps as bs A B hfv hdata hnm h1 h2 h3 hpsne hcomma hsplit hA hB hA1 hB1
    have hm := matchDepRegex_ch nm ps hnm h1 h2 h3 hpsne
    simp only [_extract_from_dependency, hm, hfv, hdata, Bool.false_eq_true, if_false]
    rw [pyStrRaw_orEmpty_s]
    unfold _extract_chars
    simp only [hcomma, Bool.false_eq_true, if_false]
    by_cases hdash : ps.data.contains '-' = true
    · simp only [hdash, if_true, hsplit, hA, hB]
      rw [pySlice_nonneg V.data (A - 1) B (by omega) (by omega)]
      have harith : B - (A - 1) = B - A + 1 := by ring
      rw [harith]
    · exfalso
      have hcf : ps.data.contains '-' = false := by
        cases hx : ps.data.contains '-'
        · rfl
        · exact absurd hx hdash
      have hno : ∀ c ∈ ps.data, ¬ (c = '-') := by
        intro c hc hcd
        subst hcd
        have he : ps.data.elem '-' = true := List.elem_iff.mpr hc
        rw [show ps.data.contains '-' = ps.data.elem '-' from rfl, he] at hcf
        cases hcf
      have hone := splitCharAux_no_sep '-' ps.data hno []
      rw [pySplitChar, hone] at hsplit
      simp at hsplit
  · intro fv nm V ps parts hfv hdata hnm h1 h2 h3 hpsne hcomma hsplit
    have hm := matchDepRegex_ch nm ps hnm h1 h2 h3 hpsne
    simp only [_extract_from_dependency, hm, hfv, hdata, Bool.false_eq_true, if_false]
    rw [pyStrRaw_orEmpty_s]
    unfold _extract_chars
    simp only [hcomma, if_true, hsplit]
    congr 1
    exact chList_pipeline parts V.data

theorem dependency_extraction_rule_witness :
    _extract_from_dependency "name[w2]" [("name", Val.s "Hello World")] = "World"
  ∧ _extract_from_dependency "name[ch1-5]" [("name", Val.s "Hello World")] = "Hello"
  ∧ _extract_from_dependency "name[ch1,3,5]" [("name", Val.s "Hello World")] = "Hlo" := by
  have h1 := dependency_extraction_rule.1 [("name", Val.s "Hello World")] "name"
    "Hello World" "2" 2 (by decide) (by decide) (by decide) (by decide) (by decide)
    (by decide) (by decide) (by decide)
  have h2 := dependency_extraction_rule.2.1 [("name", Val.s "Hello World")] "name"
    "Hello World" "1-5" "1" "5" 1 5 (by decide) (by decide) (by decide) (by decide)
    (by decide) (by decide) (by decide) (by decide) (by decide) (by decide) (by decide)
    (by decide) (by decide)
  have h3 := dependency_extraction_rule.2.2 [("name", Val.s "Hello World")] "name"
    "Hello World" "1,3,5" ["1", "3", "5"] (by decide) (by decide) (by decide)
    (by decide) (by decide) (by decide) (by decide) (by decide) (by decide)
  refine ⟨?_, ?_, ?_⟩
  · rw [show ("name" ++ "[w" ++ "2" ++ "]" : String) = "name[w2]" from rfl] at h1
    rw [h1]; decide
  · rw [show ("name" ++ "[ch" ++ "1-5" ++ "]" : String) = "name[ch1-5]" from rfl] at h2
    rw [h2]; decide
  · rw [show ("name" ++ "[ch" ++ "1,3,5" ++ "]" : String) = "name[ch1,3,5]" from rfl] at h3
    rw [h3]; decide

/-
Element tree model for the update engine (api/svg_updater.py,
update_svg_from_field_updates). lxml parses the SVG into a tree; the
function builds one id-to-element map over root.iter() (document order, so
a later element carrying a duplicate id overwrites an earlier one in the
map) and then mutates mapped elements in place. The tree is modelled by El;
findById and mutById locate and rewrite the node the lxml map designates:
the last node in preorder carrying the id. lxml mutation of a node that an
earlier field detached from the tree does not change the serialized output;
in the model such a node is simply no longer found, which produces the same
output. The md5 cache wrapper (lines 93-102 and 211-214) returns previously
computed results for identical inputs and is therefore invisible in a pure
model, and the string parse and serialize steps at the boundary are lxml
library behaviour outside the embedding.
-/

/-- One lxml element: optional id attribute, ordered attribute list with
unique keys, optional text, and child elements. -/
inductive El : Type where
  | mk (idAttr : Option String) (attrs : List (String × String))
       (text : Option String) (children : List El) : El
deriving Repr

/-- The id attribute of an element. -/
def El.idAttr : El → Option String
  | .mk i _ _ _ => i

/-- The attribute list of an element. -/
def El.attrs : El → List (String × String)
  | .mk _ a _ _ => a

/-- The text of an element. -/
def El.text : El → Option String
  | .mk _ _ t _ => t

/-- The children of an element. -/
def El.children : El → List El
  | .mk _ _ _ cs => cs

mutual

/-- Whether the subtree rooted at this element contains the id. -/
def El.containsId : El → String → Bool
  | .mk i _ _ cs, tid => i == some tid || elsContainId cs tid

/-- Whether any subtree in the list contains the id. -/
def elsContainId : List El → String → Bool
  | [], _ => false
  | e :: es, tid => e.containsId tid || elsContainId es tid

end

mutual

/-- The node the lxml id map designates for tid inside this subtree: the
last preorder occurrence (parents precede children, left precedes right). -/
def El.findById : El → String → Option El
  | .mk i a t cs, tid =>
    match elsFindLast cs tid with
    | some r => some r
    | Option.none => if i == some tid then some (.mk i a t cs) else Option.none

/-- The last occurrence of tid across a sibling list. -/
def elsFindLast : List El → String → Option El
  | [], _ => Option.none
  | e :: es, tid =>
    match elsFindLast es tid with
    | some r => some r
    | Option.none => e.findById tid

end

mutual

/-- Rewrites the node that findById designates, leaving the rest untouched. -/
def El.mutById : El → String → (El → El) → El
  | .mk i a t cs, tid, f =>
    if elsContainId cs tid then .mk i a t (elsMutLast cs tid f)
    else if i == some tid then f (.mk i a t cs) else .mk i a t cs

/-- Rewrites inside the last sibling subtree containing tid. -/
def elsMutLast : List El → String → (El → El) → List El
  | [], _, _ => []
  | e :: es, tid, f =>
    if elsContainId es tid then e :: elsMutLast es tid f
    else (e.mutById tid f) :: es

end

/-- lxml el.set on the attribute dict: replaces the value in place when the
key exists, otherwise appends the pair. -/
def setAttrL : List (String × String) → String → String → List (String × String)
  | [], k, v => [(k, v)]
  | (a, b) :: rest, k, v =>
    if strEq a k then (a, v) :: rest else (a, b) :: setAttrL rest k v

/-- lxml el.attrib.pop(k, None): removes the entry when present. -/
def popAttrL : List (String × String) → String → List (String × String)
  | [], _ => []
  | (a, b) :: rest, k => if strEq a k then rest else (a, b) :: popAttrL rest k

/-- Attribute lookup. -/
def lookupAttr : List (String × String) → String → Option String
  | [], _ => Option.none
  | (a, b) :: rest, k => if strEq a k then some b else lookupAttr rest k

/-- el.set at the element level. -/
def El.setAttr (e : El) (k v : String) : El :=
  .mk e.idAttr (setAttrL e.attrs k v) e.text e.children

/-- el.attrib.pop at the element level. -/
def El.popAttr (e : El) (k : String) : El :=
  .mk e.idAttr (popAttrL e.attrs k) e.text e.children

/-- One entry of the field_updates list: an id and the submitted value
(update.get("value", "") collapses a missing value key to ""). -/
structure Update where
  uid : String
  value : Val
deriving DecidableEq, Repr

/-- Python dict insert-or-replace, preserving insertion order. -/
def dictSet (m : List (String × Val)) (k : String) (v : Val) :
    List (String × Val) :=
  match m with
  | [] => [(k, v)]
  | (a, b) :: rest => if strEq a k then (a, v) :: rest else (a, b) :: dictSet rest k v

/-- Seeding pass (svg_updater.py lines 119-121): current or default value,
with Python or-truthiness, falling back to the empty string. -/
def seedValues (fields : List FieldD) : List (String × Val) :=
  fields.foldl (fun m f =>
    dictSet m f.fid (if f.currentValue.truthy then f.currentValue
      else if f.defaultValue.truthy then f.defaultValue else Val.s "")) []

/-- Update overlay pass (svg_updater.py lines 123-127): only ids present in
the schema are applied, later entries overwrite earlier ones. -/
def overlayUpdates (m : List (String × Val)) (fields : List FieldD)
    (ups : List Update) : List (String × Val) :=
  ups.foldl (fun m u =>
    if listHasStr (fields.map FieldD.fid) u.uid then dictSet m u.uid u.value else m) m

/-- Dependency resolution pass (svg_updater.py lines 129-137). -/
def computeValues (fields : List FieldD) (fvals : List (String × Val)) :
    List (String × Val) :=
  fields.foldl (fun cv f =>
    match f.dependsOn with
    | some d =>
      if !d.data.isEmpty then
        dictSet cv f.fid (Val.s (_extract_from_dependency d fvals))
      else dictSet cv f.fid (fvGet fvals f.fid)
    | Option.none => dictSet cv f.fid (fvGet fvals f.fid)) []

/-- svg_updater._bool_from_value. -/
def _bool_from_value (v : Val) : Bool :=
  match v with
  | .b x => x
  | .i n => n != 0
  | v =>
    let t := strLower ⟨stripL (pyStrRaw v).data⟩
    strEq t "true" || strEq t "1" || strEq t "yes" || strEq t "y"

/-- The xlink href attribute key as lxml spells it. -/
def xlinkHref : String := "\x7bhttp://www.w3.org/1999/xlink\x7dhref"

/-- The visibility reset applied to a matching select option. -/
def showOptionMut (e : El) : El :=
  ((e.popAttr "display").setAttr "opacity" "1").setAttr "visibility" "visible"

/-- The hiding applied to a non-matching select option. -/
def hideOptionMut (e : El) : El :=
  ((e.setAttr "opacity" "0").setAttr "visibility" "hidden").setAttr "display" "none"

/-- lxml element truth value: bool(el) falls back to len(el), the number of
child elements, so an element with no child elements is falsy even when it
exists and carries text and attributes. -/
def elTruthy (e : El) : Bool := !e.children.isEmpty

/-- A mutation behind the `if not el: continue` guards of svg_updater.py
lines 158-159 and 175-176: besides a missing element (modelled by mutById
finding nothing), the guard also skips a found element that is falsy, that
is, one with no child elements. -/
def guardMut (f : El → El) (e : El) : El := if elTruthy e then f e else e

/-- Mutation of one select option element (svg_updater.py lines 153-169):
skip blank ids and falsy (missing or childless) elements, otherwise show or
hide depending on the value comparison. -/
def selStep (v : Val) (r : El) (o : SelectOption) : El :=
  if o.svgElementId.data.isEmpty then r
  else r.mutById o.svgElementId (guardMut (fun e =>
    if strEq o.value (pyStrRaw v) then showOptionMut e else hideOptionMut e))

/-- Document mutation for one field (svg_updater.py lines 147-200), given its
computed value. The element_map.get returning None is modelled by mutById
finding nothing; a found but childless element is skipped by the guardMut
truthiness test, matching `if not el: continue`. -/
def applyFieldMutation (root : El) (f : FieldD) (v : Val) : El :=
  if !f.options.isEmpty then
    f.options.foldl (selStep v) root
  else if f.svgElementId.data.isEmpty then root
  else
    let ftype := strLower (if f.ftype.data.isEmpty then "text" else f.ftype)
    if strEq ftype "upload" || strEq ftype "file" || strEq ftype "sign" then
      match v with
      | Val.s t =>
        if !t.data.isEmpty && !(stripL t.data).isEmpty then
          root.mutById f.svgElementId (guardMut (fun e => e.setAttr xlinkHref t))
        else root
      | _ => root
    else if strEq ftype "hide" then
      root.mutById f.svgElementId (guardMut (fun e =>
        if _bool_from_value v then
          ((e.setAttr "opacity" "1").setAttr "visibility" "visible").popAttr "display"
        else
          ((e.setAttr "opacity" "0").setAttr "visibility" "hidden").setAttr "display" "none"))
    else
      root.mutById f.svgElementId (guardMut (fun e =>
        El.mk e.idAttr e.attrs
          (some (match v with | Val.none => "" | v => pyStrRaw v)) []))

/-- update_svg_from_field_updates on the parsed tree: seeding, update
overlay, dependency resolution, per-field document mutation in schema
order, and the currentValue writeback, returning the mutated tree and the
value-updated schema. -/
def update_svg_from_field_updates (root : El) (fields : List FieldD)
    (ups : List Update) : El × List FieldD :=
  if fields.isEmpty then (root, fields)
  else
    let fvals := overlayUpdates (seedValues fields) fields ups
    let cv := computeValues fields fvals
    let root2 := fields.foldl (fun r f => applyFieldMutation r f (fvGet cv f.fid)) root
    let fields2 := fields.map (fun f => { f with currentValue := fvGet cv f.fid })
    (root2, fields2)

mutual

theorem El.findById_isSome : ∀ (e : El) (tid : String),
    (e.findById tid).isSome = e.containsId tid
  | .mk i a t cs, tid => by
    rw [El.findById, El.containsId, ← elsFindLast_isSome cs tid]
    cases elsFindLast cs tid with
    | none => cases h : i == some tid <;> simp [h]
    | some r => simp

theorem elsFindLast_isSome : ∀ (cs : List El) (tid : String),
    (elsFindLast cs tid).isSome = elsContainId cs tid
  | [], tid => by rw [elsFindLast, elsContainId]; rfl
  | e :: es, tid => by
    rw [elsFindLast, elsContainId, ← elsFindLast_isSome es tid,
        ← El.findById_isSome e tid]
    cases elsFindLast es tid <;> cases e.findById tid <;> simp

end

mutual

theorem El.findById_no_child_hit : ∀ (e : El) (tid : String) (t : El),
    e.findById tid = some t → elsContainId t.children tid = false
  | .mk i a tx cs, tid, t => by
    rw [El.findById]
    cases hc : elsFindLast cs tid with
    | some r =>
      intro h
      cases h
      exact elsFindLast_no_child_hit cs tid _ hc
    | none =>
      cases hi : i == some tid with
      | true =>
        intro h
        simp only [hi, if_true, Option.some.injEq] at h
        subst h
        have := elsFindLast_isSome cs tid
        rw [hc] at this
        simpa [El.children] using this.symm
      | false => intro h; simp [hi] at h

theorem elsFindLast_no_child_hit : ∀ (cs : List El) (tid : String) (t : El),
    elsFindLast cs tid = some t → elsContainId t.children tid = false
  | [], tid, t => by rw [elsFindLast]; intro h; cases h
  | e :: es, tid, t => by
    rw [elsFindLast]
    cases hr : elsFindLast es tid with
    | some r =>
      intro h
      cases h
      exact elsFindLast_no_child_hit es tid _ hr
    | none => exact fun h => El.findById_no_child_hit e tid t h

end

mutual

theorem El.mutById_of_not_contains : ∀ (e : El) (tid : String) (f : El → El),
    e.containsId tid = false → e.mutById tid f = e
  | .mk i a tx cs, tid, f => by
    rw [El.containsId, El.mutById]
    intro h
    have h1 : (i == some tid) = false := by
      cases hx : i == some tid
      · rfl
      · rw [hx] at h; simp at h
    have h2 : elsContainId cs tid = false := by
      cases hx : elsContainId cs tid
      · rfl
      · rw [hx] at h; simp at h
    simp [h1, h2]

theorem elsMutLast_of_not_contains : ∀ (cs : List El) (tid : String) (f : El → El),
    elsContainId cs tid = false → elsMutLast cs tid f = cs
  | [], _, _ => by intro h; rw [elsMutLast]
  | e :: es, tid, f => by
    rw [elsContainId, elsMutLast]
    intro h
    have h1 : e.containsId tid = false := by
      cases hx : e.containsId tid
      · rfl
      · rw [hx] at h; simp at h
    have h2 : elsContainId es tid = false := by
      cases hx : elsContainId es tid
      · rfl
      · rw [hx] at h; simp at h
    simp [h2, El.mutById_of_not_contains e tid f h1]

end

mutual

theorem El.findById_mutById_self : ∀ (e : El) (tid : String) (f : El → El) (t : El),
    e.findById tid = some t → (f t).idAttr = t.idAttr →
    elsContainId (f t).children tid = false →
    (e.mutById tid f).findById tid = some (f t)
  | .mk i a tx cs, tid, f, t => by
    rw [El.findById, El.mutById]
    cases hc : elsFindLast cs tid with
    | some r =>
      intro h hid hch
      cases h
      have hcont : elsContainId cs tid = true := by
        have := elsFindLast_isSome cs tid
        rw [hc] at this
        simpa using this.symm
      rw [if_pos hcont, El.findById,
          elsFindLast_mutLast_self cs tid f _ hc hid hch]
    | none =>
      cases hi : i == some tid with
      | true =>
        intro h hid hch
        simp only [hi, if_true, Option.some.injEq] at h
        have hcont : elsContainId cs tid = false := by
          have := elsFindLast_isSome cs tid
          rw [hc] at this
          simpa using this.symm
        rw [if_neg (by simp [hcont]), if_pos (rfl : (true = true))]
        subst h
        rcases hft : f (El.mk i a tx cs) with ⟨i2, a2, tx2, cs2⟩
        have hid2 : i2 = i := by
          have := hid
          rw [hft] at this
          simpa [El.idAttr] using this
        have hch2 : elsContainId cs2 tid = false := by
          have := hch
          rw [hft] at this
          simpa [El.children] using this
        rw [El.findById]
        have hfl : elsFindLast cs2 tid = Option.none := by
          have := elsFindLast_isSome cs2 tid
          rw [hch2] at this
          cases hx : elsFindLast cs2 tid
          · rfl
          · rw [hx] at this; simp at this
        rw [hfl]
        rw [hid2, if_pos hi]
      | false => intro h; simp [hi] at h

theorem elsFindLast_mutLast_self : ∀ (cs : List El) (tid : String) (f : El → El) (t : El),
    elsFindLast cs tid = some t → (f t).idAttr = t.idAttr →
    elsContainId (f t).children tid = false →
    elsFindLast (elsMutLast cs tid f) tid = some (f t)
  | [], tid, f, t => by rw [elsFindLast]; intro h; cases h
  | e :: es, tid, f, t => by
    rw [elsFindLast, elsMutLast]
    cases hr : elsFindLast es tid with
    | some r =>
      intro h hid hch
      cases h
      have hcont : elsContainId es tid = true := by
        have := elsFindLast_isSome es tid
        rw [hr] at this
        simpa using this.symm
      rw [if_pos hcont, elsFindLast,
          elsFindLast_mutLast_self es tid f _ hr hid hch]
    | none =>
      intro h hid hch
      have hcont : elsContainId es tid = false := by
        have := elsFindLast_isSome es tid
        rw [hr] at this
        simpa using this.symm
      rw [if_neg (by simp [hcont]), elsFindLast, hr]
      exact El.findById_mutById_self e tid f t h hid hch

end

mutual

theorem El.containsId_mutById : ∀ (e : El) (tid : String) (f : El → El),
    (∀ x, (f x).idAttr = x.idAttr ∧ (f x).children = x.children) →
    ∀ (j : String), (e.mutById tid f).containsId j = e.containsId j
  | .mk i a tx cs, tid, f => by
    intro hf j
    rw [El.mutById]
    cases hcont : elsContainId cs tid with
    | true =>
      rw [if_pos rfl]
      rw [El.containsId, El.containsId, elsContainId_mutLast cs tid f hf j]
    | false =>
      rw [if_neg (by simp)]
      cases hi : i == some tid with
      | true =>
        rw [if_pos rfl]
        rcases hft : f (El.mk i a tx cs) with ⟨i2, a2, tx2, cs2⟩
        have h1 := (hf (El.mk i a tx cs)).1
        have h2 := (hf (El.mk i a tx cs)).2
        rw [hft] at h1 h2
        simp only [El.idAttr, El.children] at h1 h2
        rw [El.containsId, El.containsId, h1, h2]
      | false => rw [if_neg (by simp)]

theorem elsContainId_mutLast : ∀ (cs : List El) (tid : String) (f : El → El),
    (∀ x, (f x).idAttr = x.idAttr ∧ (f x).children = x.children) →
    ∀ (j : String), elsContainId (elsMutLast cs tid f) j = elsContainId cs j
  | [], _, _ => by intro hf j; rw [elsMutLast]
  | e :: es, tid, f => by
    intro hf j
    rw [elsMutLast]
    cases hcont : elsContainId es tid with
    | true =>
      rw [if_pos rfl, elsContainId, elsContainId,
          elsContainId_mutLast es tid f hf j]
    | false =>
      rw [if_neg (by simp), elsContainId, elsContainId,
          El.containsId_mutById e tid f hf j]

end

/-- The observable part of a found element that a foreign-id mutation
cannot change: its attribute list and whether its child list is empty. -/
def attrsCh (t : El) : List (String × String) × Bool := (t.attrs, t.children.isEmpty)

theorem elsMutLast_isEmpty (cs : List El) (tid : String) (f : El → El) :
    (elsMutLast cs tid f).isEmpty = cs.isEmpty := by
  cases cs with
  | nil => rfl
  | cons e es => rw [elsMutLast]; split <;> rfl

mutual

theorem El.findById_mutById_other : ∀ (e : El) (tid : String) (f : El → El),
    (∀ x, (f x).idAttr = x.idAttr ∧ (f x).children = x.children) →
    ∀ (j : String), j ≠ tid →
    ((e.mutById tid f).findById j).map attrsCh = (e.findById j).map attrsCh
  | .mk i a tx cs, tid, f => by
    intro hf j hj
    rw [El.mutById]
    cases hcont : elsContainId cs tid with
    | true =>
      rw [if_pos rfl, El.findById, El.findById]
      cases hr : elsFindLast cs j with
      | some r =>
        have := elsFindLast_mutLast_other cs tid f hf j hj
        rw [hr] at this
        cases hx : elsFindLast (elsMutLast cs tid f) j with
        | some r2 =>
          rw [hx] at this
          simpa using this
        | none => rw [hx] at this; simp at this
      | none =>
        have := elsFindLast_mutLast_other cs tid f hf j hj
        rw [hr] at this
        cases hx : elsFindLast (elsMutLast cs tid f) j with
        | some r2 => rw [hx] at this; simp at this
        | none =>
          cases hij : i == some j <;>
            simp [attrsCh, El.attrs, El.children, elsMutLast_isEmpty]
    | false =>
      rw [if_neg (by simp)]
      cases hi : i == some tid with
      | true =>
        rw [if_pos rfl]
        have hi3 : i = some tid := by simpa using hi
        rcases hft : f (El.mk i a tx cs) with ⟨i2, a2, tx2, cs2⟩
        have h1 := (hf (El.mk i a tx cs)).1
        have h2 := (hf (El.mk i a tx cs)).2
        rw [hft] at h1 h2
        simp only [El.idAttr, El.children] at h1 h2
        rw [El.findById, El.findById, h1, h2]
        cases hr : elsFindLast cs j with
        | some r => simp
        | none =>
          have hij : (i == some j) = false := by
            cases hx : i == some j
            · rfl
            · exfalso
              have hxx : i = some j := by simpa using hx
              rw [hi3] at hxx
              exact hj (Option.some.inj hxx).symm
          simp [hij, attrsCh, El.attrs, El.children]
      | false => rw [if_neg (by simp)]

theorem elsFindLast_mutLast_other : ∀ (cs : List El) (tid : String) (f : El → El),
    (∀ x, (f x).idAttr = x.idAttr ∧ (f x).children = x.children) →
    ∀ (j : String), j ≠ tid →
    (elsFindLast (elsMutLast cs tid f) j).map attrsCh
      = (elsFindLast cs j).map attrsCh
  | [], _, _ => by intro hf j hj; rw [elsMutLast]
  | e :: es, tid, f => by
    intro hf j hj
    rw [elsMutLast]
    cases hcont : elsContainId es tid with
    | true =>
      rw [if_pos rfl, elsFindLast, elsFindLast]
      cases hr : elsFindLast es j with
      | some r =>
        have := elsFindLast_mutLast_other es tid f hf j hj
        rw [hr] at this
        cases hx : elsFindLast (elsMutLast es tid f) j with
        | some r2 => rw [hx] at this; simpa using this
        | none => rw [hx] at this; simp at this
      | none =>
        have := elsFindLast_mutLast_other es tid f hf j hj
        rw [hr] at this
        cases hx : elsFindLast (elsMutLast es tid f) j with
        | some r2 => rw [hx] at this; simp at this
        | none => rfl
    | false =>
      rw [if_neg (by simp), elsFindLast, elsFindLast]
      cases hr : elsFindLast es j with
      | some r => simp
      | none => exact El.findById_mutById_other e tid f hf j hj

end

/-- The attribute transformation of a shown option. -/
def matchOptAttrs (a : List (String × String)) : List (String × String) :=
  setAttrL (setAttrL (popAttrL a "display") "opacity" "1") "visibility" "visible"

/-- The attribute transformation of a hidden option. -/
def hideOptAttrs (a : List (String × String)) : List (String × String) :=
  setAttrL (setAttrL (setAttrL a "opacity" "0") "visibility" "hidden") "display" "none"

theorem selOptMut_preserves (ov vs : String) :
    ∀ x : El,
      (guardMut (fun e => if strEq ov vs then showOptionMut e else hideOptionMut e) x).idAttr
          = x.idAttr
      ∧ (guardMut (fun e => if strEq ov vs then showOptionMut e else hideOptionMut e) x).children
          = x.children := by
  intro x
  cases x with
  | mk i a t cs =>
    cases hcs : cs.isEmpty <;> cases strEq ov vs <;>
      simp [guardMut, elTruthy, showOptionMut, hideOptionMut, El.setAttr, El.popAttr,
            El.idAttr, El.children, hcs]

theorem foldOptions_other (v : Val) (opts : List SelectOption) :
    ∀ (root : El) (j : String), (∀ o ∈ opts, o.svgElementId ≠ j) →
    (((opts.foldl (selStep v) root).findById j).map attrsCh)
      = ((root.findById j).map attrsCh) := by
  induction opts with
  | nil => intro root j _; rfl
  | cons o1 rest ih =>
    intro root j h
    rw [List.foldl_cons, ih _ j (fun o ho => h o (by simp [ho]))]
    unfold selStep
    by_cases hemp : o1.svgElementId.data.isEmpty
    · rw [if_pos hemp]
    · rw [if_neg hemp]
      exact El.findById_mutById_other root o1.svgElementId _
        (selOptMut_preserves o1.value (pyStrRaw v)) j
        (fun hh => (h o1 (by simp)) hh.symm)

theorem foldOptions_attrs (v : Val) (opts : List SelectOption) :
    ∀ root : El, (opts.map SelectOption.svgElementId).Nodup →
    (∀ o2 ∈ opts, o2.svgElementId.data ≠ []) →
    ∀ o ∈ opts,
    ((opts.foldl (selStep v) root).findById o.svgElementId).map attrsCh
      = (root.findById o.svgElementId).map
          (fun t => ((if t.children.isEmpty then t.attrs
                      else if strEq o.value (pyStrRaw v) then matchOptAttrs t.attrs
                      else hideOptAttrs t.attrs), t.children.isEmpty)) := by
  induction opts with
  | nil => intro root _ _ o ho; cases ho
  | cons o1 rest ih =>
    intro root hnd hne o ho
    rw [List.map_cons] at hnd
    obtain ⟨hnotin, hndrest⟩ := List.nodup_cons.mp hnd
    rcases List.mem_cons.mp ho with rfl | hmem
    · rw [List.foldl_cons]
      have hne1 : o.svgElementId.data ≠ [] := hne o (by simp)
      have hrest : ((rest.foldl (selStep v) (selStep v root o)).findById
            o.svgElementId).map attrsCh
          = (((selStep v root o).findById o.svgElementId).map attrsCh) := by
        apply foldOptions_other
        intro o2 ho2 heq
        exact hnotin (heq ▸ List.mem_map_of_mem SelectOption.svgElementId ho2)
      rw [hrest]
      unfold selStep
      rw [if_neg (by simpa using hne1)]
      cases hf : root.findById o.svgElementId with
      | none =>
        have hcf : root.containsId o.svgElementId = false := by
          have := El.findById_isSome root o.svgElementId
          rw [hf] at this
          simpa using this.symm
        rw [El.mutById_of_not_contains root _ _ hcf, hf]
        rfl
      | some t =>
        have hpres := selOptMut_preserves o.value (pyStrRaw v)
        have hch : elsContainId
            (guardMut (fun e => if strEq o.value (pyStrRaw v) then showOptionMut e
              else hideOptionMut e) t).children o.svgElementId = false := by
          rw [(hpres t).2]
          exact El.findById_no_child_hit root o.svgElementId t hf
        have hself := El.findById_mutById_self root o.svgElementId
          (guardMut (fun e =>
            if strEq o.value (pyStrRaw v) then showOptionMut e else hideOptionMut e))
          t hf (hpres t).1 hch
        rw [hself]
        cases t with
        | mk i a tx cs =>
          cases hcs : cs.isEmpty <;> cases strEq o.value (pyStrRaw v) <;>
            simp [guardMut, elTruthy, attrsCh, showOptionMut, hideOptionMut,
                  El.setAttr, El.popAttr, El.attrs, El.children,
                  matchOptAttrs, hideOptAttrs, hcs]
    · rw [List.foldl_cons]
      have ihr := ih (selStep v root o1) hndrest
        (fun o2 ho2 => hne o2 (by simp [ho2])) o hmem
      rw [ihr]
      have hneq : o.svgElementId ≠ o1.svgElementId := by
        intro heq
        exact hnotin (heq ▸ List.mem_map_of_mem SelectOption.svgElementId hmem)
      have hother : ((selStep v root o1).findById o.svgElementId).map attrsCh
          = (root.findById o.svgElementId).map attrsCh := by
        unfold selStep
        by_cases hemp : o1.svgElementId.data.isEmpty
        · rw [if_pos hemp]
        · rw [if_neg hemp]
          exact El.findById_mutById_other root o1.svgElementId _
            (selOptMut_preserves o1.value (pyStrRaw v)) o.svgElementId hneq
      have hcomp := congrArg (Option.map
        (fun p : List (String × String) × Bool =>
          ((if p.2 then p.1
            else if strEq o.value (pyStrRaw v) then matchOptAttrs p.1
            else hideOptAttrs p.1), p.2))) hother
      rw [Option.map_map, Option.map_map] at hcomp
      exact hcomp

theorem lookup_setAttrL_same (a : List (String × String)) (k v : String) :
    lookupAttr (setAttrL a k v) k = some v := by
  induction a with
  | nil => simp [setAttrL, lookupAttr, strEq_refl]
  | cons p rest ih =>
    rcases p with ⟨pk, pv⟩
    cases hk : strEq pk k with
    | true => simp [setAttrL, lookupAttr, hk]
    | false => simp [setAttrL, lookupAttr, hk, ih]

theorem lookup_setAttrL_other (a : List (String × String)) (k v k2 : String)
    (h : strEq k2 k = false) :
    lookupAttr (setAttrL a k v) k2 = lookupAttr a k2 := by
  induction a with
  | nil =>
    have : strEq k k2 = false := by
      cases hx : strEq k k2
      · rfl
      · exfalso
        have := strEq_eq_true_iff.mp hx
        rw [this, strEq_refl] at h
        cases h
    simp [setAttrL, lookupAttr, this]
  | cons p rest ih =>
    rcases p with ⟨pk, pv⟩
    cases hk : strEq pk k with
    | true =>
      have hpk2 : strEq pk k2 = false := by
        cases hx : strEq pk k2
        · rfl
        · exfalso
          rw [strEq_eq_true_iff.mp hx] at hk
          have := strEq_eq_true_iff.mp hk
          rw [this, strEq_refl] at h
          cases h
      simp [setAttrL, lookupAttr, hk, hpk2]
    | false => simp [setAttrL, lookupAttr, hk, ih]

theorem lookupAttr_eq_none (a : List (String × String)) (k : String)
    (h : ∀ key ∈ a.map Prod.fst, key ≠ k) : lookupAttr a k = Option.none := by
  induction a with
  | nil => rfl
  | cons p rest ih =>
    rcases p with ⟨pk, pv⟩
    have hpk : strEq pk k = false := by
      cases hx : strEq pk k
      · rfl
      · exact absurd (strEq_eq_true_iff.mp hx) (h pk (by simp))
    simp [lookupAttr, hpk, ih (fun key hkey => h key (by simp [hkey]))]

theorem lookup_popAttrL_same (a : List (String × String)) (k : String)
    (hnd : (a.map Prod.fst).Nodup) :
    lookupAttr (popAttrL a k) k = Option.none := by
  induction a with
  | nil => rfl
  | cons p rest ih =>
    rcases p with ⟨pk, pv⟩
    rw [List.map_cons] at hnd
    obtain ⟨hnotin, hndrest⟩ := List.nodup_cons.mp hnd
    cases hk : strEq pk k with
    | true =>
      have hpk : pk = k := strEq_eq_true_iff.mp hk
      subst hpk
      simp only [popAttrL, hk, if_true]
      exact lookupAttr_eq_none rest pk (fun key hkey hkk => hnotin (hkk ▸ hkey))
    | false => simp [popAttrL, lookupAttr, hk, ih hndrest]

theorem matchOptAttrs_lookups (a : List (String × String))
    (hnd : (a.map Prod.fst).Nodup) :
    lookupAttr (matchOptAttrs a) "opacity" = some "1"
    ∧ lookupAttr (matchOptAttrs a) "visibility" = some "visible"
    ∧ lookupAttr (matchOptAttrs a) "display" = Option.none := by
  unfold matchOptAttrs
  refine ⟨?_, ?_, ?_⟩
  · rw [lookup_setAttrL_other _ _ _ _ (by decide), lookup_setAttrL_same]
  · rw [lookup_setAttrL_same]
  · rw [lookup_setAttrL_other _ _ _ _ (by decide),
        lookup_setAttrL_other _ _ _ _ (by decide),
        lookup_popAttrL_same a "display" hnd]

theorem hideOptAttrs_lookups (a : List (String × String)) :
    lookupAttr (hideOptAttrs a) "opacity" = some "0"
    ∧ lookupAttr (hideOptAttrs a) "visibility" = some "hidden"
    ∧ lookupAttr (hideOptAttrs a) "display" = some "none" := by
  unfold hideOptAttrs
  refine ⟨?_, ?_, ?_⟩
  · rw [lookup_setAttrL_other _ _ _ _ (by decide),
        lookup_setAttrL_other _ _ _ _ (by decide), lookup_setAttrL_same]
  · rw [lookup_setAttrL_other _ _ _ _ (by decide), lookup_setAttrL_same]
  · rw [lookup_setAttrL_same]

theorem map_attrsCh_attrs (x : Option El) (A : List (String × String)) (b : Bool)
    (h : x.map attrsCh = some (A, b)) : x.map El.attrs = some A := by
  cases x with
  | none => cases h
  | some r =>
    have h2 : attrsCh r = (A, b) := by
      have := h
      simp only [Option.map_some'] at this
      exact Option.some.inj this
    have h3 : r.attrs = A := congrArg Prod.fst h2
    simp only [Option.map_some', h3]

/-- C7 (amended): updating a select field mutates an option element only
when it is truthy in the lxml sense, that is, has at least one child
element; for such elements the matching option gets opacity 1, visibility
visible and display removed, every non-matching one gets opacity 0,
visibility hidden and display none, and the computed value is written back
as the field currentValue; a childless option element is skipped. -/
theorem select_field_update_rule :
    ∀ (root : El) (f : FieldD) (ups : List Update) (o : SelectOption) (t : El),
      f.options ≠ [] →
      (f.options.map SelectOption.svgElementId).Nodup →
      (∀ o2 ∈ f.options, o2.svgElementId.data ≠ []) →
      o ∈ f.options →
      root.findById o.svgElementId = some t →
      t.children.isEmpty = false →
      (t.attrs.map Prod.fst).Nodup →
      (strEq o.value (pyStrRaw (fvGet
          (computeValues [f] (overlayUpdates (seedValues [f]) [f] ups)) f.fid)) = true →
        lookupAttr ((((update_svg_from_field_updates root [f] ups).1.findById
            o.svgElementId).map El.attrs).getD []) "opacity" = some "1"
        ∧ lookupAttr ((((update_svg_from_field_updates root [f] ups).1.findById
            o.svgElementId).map El.attrs).getD []) "visibility" = some "visible"
        ∧ lookupAttr ((((update_svg_from_field_updates root [f] ups).1.findById
            o.svgElementId).map El.attrs).getD []) "display" = Option.none)
      ∧ (strEq o.value (pyStrRaw (fvGet
          (computeValues [f] (overlayUpdates (seedValues [f]) [f] ups)) f.fid)) = false →
        lookupAttr ((((update_svg_from_field_updates root [f] ups).1.findById
            o.svgElementId).map El.attrs).getD []) "opacity" = some "0"
        ∧ lookupAttr ((((update_svg_from_field_updates root [f] ups).1.findById
            o.svgElementId).map El.attrs).getD []) "visibility" = some "hidden"
        ∧ lookupAttr ((((update_svg_from_field_updates root [f] ups).1.findById
            o.svgElementId).map El.attrs).getD []) "display" = some "none")
      ∧ (update_svg_from_field_updates root [f] ups).2
          = [{ f with currentValue := (fvGet
              (computeValues [f] (overlayUpdates (seedValues [f]) [f] ups)) f.fid) }] := by
  intro root f ups o t hne hnd hnee ho hfind hchild hkeys
  have hoe : f.options.isEmpty = false := by
    cases hx : f.options
    · exact absurd hx hne
    · rfl
  have hdoc : (update_svg_from_field_updates root [f] ups).1
      = f.options.foldl (selStep (fvGet
          (computeValues [f] (overlayUpdates (seedValues [f]) [f] ups)) f.fid)) root := by
    rw [update_svg_from_field_updates]
    simp only [List.isEmpty_cons, Bool.false_eq_true, if_false,
      List.foldl_cons, List.foldl_nil]
    simp only [applyFieldMutation, hoe, Bool.not_false, if_true]
  have hpair : (((update_svg_from_field_updates root [f] ups).1.findById
        o.svgElementId).map attrsCh)
      = some ((if strEq o.value (pyStrRaw (fvGet
          (computeValues [f] (overlayUpdates (seedValues [f]) [f] ups)) f.fid))
          then matchOptAttrs t.attrs else hideOptAttrs t.attrs), false) := by
    rw [hdoc, foldOptions_attrs _ f.options root hnd hnee o ho, hfind]
    simp only [Option.map_some', hchild, Bool.false_eq_true, if_false]
  have hattrs : (((update_svg_from_field_updates root [f] ups).1.findById
        o.svgElementId).map El.attrs)
      = some (if strEq o.value (pyStrRaw (fvGet
          (computeValues [f] (overlayUpdates (seedValues [f]) [f] ups)) f.fid))
          then matchOptAttrs t.attrs else hideOptAttrs t.attrs) :=
    map_attrsCh_attrs _ _ _ hpair
  have hsched : (update_svg_from_field_updates root [f] ups).2
      = [{ f with currentValue := (fvGet
          (computeValues [f] (overlayUpdates (seedValues [f]) [f] ups)) f.fid) }] := by
    rw [update_svg_from_field_updates]
    simp only [List.isEmpty_cons, Bool.false_eq_true, if_false, List.map_cons,
      List.map_nil]
  refine ⟨?_, ?_, hsched⟩
  · intro hm
    rw [hattrs] at *
    simp only [hm, if_true, Option.getD_some]
    exact matchOptAttrs_lookups t.attrs hkeys
  · intro hm
    simp only [hattrs, hm, Bool.false_eq_true, if_false, Option.getD_some]
    exact hideOptAttrs_lookups t.attrs

/-- Concrete select options for the end-to-end Country example. -/
def usaOptW : SelectOption :=
  { value := "Country.select_USA", label := "USA",
    svgElementId := "Country.select_USA", displayText := "United States" }

/-- Concrete Canada option. -/
def canOptW : SelectOption :=
  { value := "Country.select_Canada", label := "Canada",
    svgElementId := "Country.select_Canada", displayText := "Canada" }

/-- The Country select field as the parser derives it. -/
def countryFieldW : FieldD :=
  { fid := "Country", name := "Country", ftype := "select",
    svgElementId := "Country.select_USA", options := [usaOptW, canOptW],
    defaultValue := Val.s "Country.select_USA",
    currentValue := Val.s "Country.select_USA",
    isTrackingId := false, trackingRole := Option.none, maxVal := Option.none,
    dependsOn := Option.none, link := Option.none }

/-- A document holding the two option elements; each option is a group
with one child element, so lxml truthiness lets the engine mutate it. -/
def countryDocW : El :=
  .mk (some "svg") [] Option.none
    [.mk (some "Country.select_USA") []
       Option.none [.mk Option.none [] (some "United States") []],
     .mk (some "Country.select_Canada") []
       Option.none [.mk Option.none [] (some "Canada") []]]

/-- The update selecting Canada. -/
def countryUpsW : List Update := [⟨"Country", Val.s "Country.select_Canada"⟩]

theorem select_field_update_rule_witness :
    (lookupAttr ((((update_svg_from_field_updates countryDocW [countryFieldW]
        countryUpsW).1.findById "Country.select_Canada").map El.attrs).getD [])
        "opacity" = some "1"
      ∧ lookupAttr ((((update_svg_from_field_updates countryDocW [countryFieldW]
        countryUpsW).1.findById "Country.select_Canada").map El.attrs).getD [])
        "visibility" = some "visible"
      ∧ lookupAttr ((((update_svg_from_field_updates countryDocW [countryFieldW]
        countryUpsW).1.findById "Country.select_Canada").map El.attrs).getD [])
        "display" = Option.none)
    ∧ (lookupAttr ((((update_svg_from_field_updates countryDocW [countryFieldW]
        countryUpsW).1.findById "Country.select_USA").map El.attrs).getD [])
        "opacity" = some "0"
      ∧ lookupAttr ((((update_svg_from_field_updates countryDocW [countryFieldW]
        countryUpsW).1.findById "Country.select_USA").map El.attrs).getD [])
        "visibility" = some "hidden"
      ∧ lookupAttr ((((update_svg_from_field_updates countryDocW [countryFieldW]
        countryUpsW).1.findById "Country.select_USA").map El.attrs).getD [])
        "display" = some "none")
    ∧ (update_svg_from_field_updates countryDocW [countryFieldW] countryUpsW).2
        = [{ countryFieldW with currentValue := Val.s "Country.select_Canada" }] := by
  have h1 := select_field_update_rule countryDocW countryFieldW countryUpsW canOptW
    (El.mk (some "Country.select_Canada") []
      Option.none [El.mk Option.none [] (some "Canada") []])
    (by decide) (by decide) (by decide) (by decide) rfl rfl (by decide)
  have h2 := select_field_update_rule countryDocW countryFieldW countryUpsW usaOptW
    (El.mk (some "Country.select_USA") []
      Option.none [El.mk Option.none [] (some "United States") []])
    (by decide) (by decide) (by decide) (by decide) rfl rfl (by decide)
  refine ⟨h1.1 (by decide), h2.2.1 (by decide), ?_⟩
  rw [h1.2.2]
  rfl

/-- The end-to-end Country document exactly as the claim's example has it:
each option element carries its label as text and has no child elements. -/
def bareCountryDocW : El :=
  .mk (some "svg") [] Option.none
    [.mk (some "Country.select_USA") [] (some "United States") [],
     .mk (some "Country.select_Canada") [] (some "Canada") []]

/-- C7 counterexample: on childless option elements the engine is a no-op,
because lxml element truthiness counts children and the not-el guard skips
them; the Canada option never receives opacity 1, contradicting the claim's
unconditional visibility toggling. -/
theorem childless_option_skipped_cex :
    (update_svg_from_field_updates bareCountryDocW [countryFieldW] countryUpsW).1
        = bareCountryDocW
    ∧ lookupAttr ((((update_svg_from_field_updates bareCountryDocW [countryFieldW]
        countryUpsW).1.findById "Country.select_Canada").map El.attrs).getD [])
        "opacity" = Option.none := ⟨rfl, rfl⟩

/-- C9 (amended): for a plain text-like field (not select, upload, file,
sign or hide) whose bound element has at least one child element (lxml
truthiness), the element after the update is exactly the original with its
children removed and its text set to the stringified computed value, None
becoming the empty string; a childless bound element is skipped. -/
theorem text_update_clears_children :
    ∀ (root : El) (f : FieldD) (ups : List Update) (t : El),
      f.options = [] →
      f.svgElementId.data ≠ [] →
      strEq (strLower (if f.ftype.data.isEmpty then "text" else f.ftype)) "upload" = false →
      strEq (strLower (if f.ftype.data.isEmpty then "text" else f.ftype)) "file" = false →
      strEq (strLower (if f.ftype.data.isEmpty then "text" else f.ftype)) "sign" = false →
      strEq (strLower (if f.ftype.data.isEmpty then "text" else f.ftype)) "hide" = false →
      root.findById f.svgElementId = some t →
      t.children.isEmpty = false →
      (update_svg_from_field_updates root [f] ups).1.findById f.svgElementId
        = some (El.mk t.idAttr t.attrs
            (some (match fvGet (computeValues [f]
                (overlayUpdates (seedValues [f]) [f] ups)) f.fid with
              | Val.none => ""
              | v => pyStrRaw v)) []) := by
  intro root f ups t hopts hsid h1 h2 h3 h4 hfind hchild
  have hsidb : f.svgElementId.data.isEmpty = false := by
    cases hd : f.svgElementId.data
    · exact absurd hd hsid
    · rfl
  have hdoc : (update_svg_from_field_updates root [f] ups).1
      = root.mutById f.svgElementId (guardMut (fun e =>
          El.mk e.idAttr e.attrs
            (some (match fvGet (computeValues [f]
                (overlayUpdates (seedValues [f]) [f] ups)) f.fid with
              | Val.none => ""
              | v => pyStrRaw v)) [])) := by
    rw [update_svg_from_field_updates]
    simp only [List.isEmpty_cons, Bool.false_eq_true, if_false,
      List.foldl_cons, List.foldl_nil]
    simp only [applyFieldMutation, hopts, List.isEmpty_nil, Bool.not_true,
      Bool.false_eq_true, if_false, hsidb, h1, h2, h3, h4, Bool.or_self,
      Bool.or_false, Bool.false_or]
  have hgt : guardMut (fun e =>
        El.mk e.idAttr e.attrs
          (some (match fvGet (computeValues [f]
              (overlayUpdates (seedValues [f]) [f] ups)) f.fid with
            | Val.none => ""
            | v => pyStrRaw v)) []) t
      = El.mk t.idAttr t.attrs
          (some (match fvGet (computeValues [f]
              (overlayUpdates (seedValues [f]) [f] ups)) f.fid with
            | Val.none => ""
            | v => pyStrRaw v)) [] := by
    unfold guardMut elTruthy
    rw [hchild]
    rfl
  rw [hdoc,
    El.findById_mutById_self root f.svgElementId _ t hfind
      (by rw [hgt]; rfl) (by rw [hgt]; rfl),
    hgt]

/-- A text field document for the child-clearing witness. -/
def textDocW : El :=
  .mk (some "svg") [] Option.none
    [.mk (some "Name.text") [("x", "10")] (some "old")
      [.mk Option.none [] (some "inner tspan") []]]

theorem text_update_clears_children_witness :
    (update_svg_from_field_updates textDocW [mkNonSelectField "Name.text" "old"]
        [⟨"Name", Val.s "Alice"⟩]).1.findById "Name.text"
      = some (El.mk (some "Name.text") [("x", "10")] (some "Alice") []) := by
  exact text_update_clears_children textDocW (mkNonSelectField "Name.text" "old")
    [⟨"Name", Val.s "Alice"⟩]
    (El.mk (some "Name.text") [("x", "10")] (some "old")
      [El.mk Option.none [] (some "inner tspan") []])
    (by decide) (by decide) (by decide) (by decide) (by decide) (by decide) rfl rfl

/-- A document whose bound text element has text but no child elements. -/
def bareTextDocW : El :=
  .mk (some "svg") [] Option.none
    [.mk (some "Name.text") [("x", "10")] (some "old") []]

/-- C9 counterexample: a childless bound element is falsy for lxml, so the
engine skips it entirely: the document comes back unchanged and the old
text survives even though the computed value is Alice, contradicting the
claim's unconditional text replacement. -/
theorem childless_text_skipped_cex :
    (update_svg_from_field_updates bareTextDocW [mkNonSelectField "Name.text" "old"]
        [⟨"Name", Val.s "Alice"⟩]).1 = bareTextDocW
    ∧ ((bareTextDocW.findById "Name.text").map El.text) = some (some "old")
    ∧ fvGet (computeValues [mkNonSelectField "Name.text" "old"]
        (overlayUpdates (seedValues [mkNonSelectField "Name.text" "old"])
          [mkNonSelectField "Name.text" "old"] [⟨"Name", Val.s "Alice"⟩])) "Name"
        = Val.s "Alice" := ⟨rfl, rfl, rfl⟩

theorem fvGet_dictSet_same (m : List (String × Val)) (k : String) (v : Val) :
    fvGet (dictSet m k v) k = v := by
  induction m with
  | nil => simp [dictSet, fvGet, strEq_refl]
  | cons p rest ih =>
    rcases p with ⟨pk, pv⟩
    cases hk : strEq pk k with
    | true => simp [dictSet, fvGet, hk]
    | false => simp [dictSet, fvGet, hk, ih]

theorem fvGet_dictSet_other (m : List (String × Val)) (k v k2)
    (h : k2 ≠ k) : fvGet (dictSet m k v) k2 = fvGet m k2 := by
  have hke : strEq k k2 = false := by
    cases hx : strEq k k2
    · rfl
    · exact absurd (strEq_eq_true_iff.mp hx).symm h
  induction m with
  | nil => simp [dictSet, fvGet, hke]
  | cons p rest ih =>
    rcases p with ⟨pk, pv⟩
    cases hk : strEq pk k with
    | true =>
      have : strEq pk k2 = false := by
        cases hx : strEq pk k2
        · rfl
        · exfalso
          rw [strEq_eq_true_iff.mp hx] at hk
          rw [strEq_eq_true_iff.mp hk] at h
          exact h rfl
      simp [dictSet, fvGet, hk, this]
    | false => simp [dictSet, fvGet, hk, ih]

theorem fvGet_seed_foldl_not_mem (fields : List FieldD) (k : String)
    (h : k ∉ fields.map FieldD.fid) :
    ∀ m, fvGet (fields.foldl (fun m f2 =>
      dictSet m f2.fid (if f2.currentValue.truthy then f2.currentValue
        else if f2.defaultValue.truthy then f2.defaultValue else Val.s "")) m) k
      = fvGet m k := by
  induction fields with
  | nil => intro m; rfl
  | cons f1 rest ih =>
    intro m
    rw [List.foldl_cons, ih (fun hm => h (by simp [hm]))]
    exact fvGet_dictSet_other m f1.fid _ k (fun he => h (by simp [he]))

theorem fvGet_seed_foldl (fields : List FieldD) (f : FieldD)
    (hnd : (fields.map FieldD.fid).Nodup) (hmem : f ∈ fields) :
    ∀ m, fvGet (fields.foldl (fun m f2 =>
      dictSet m f2.fid (if f2.currentValue.truthy then f2.currentValue
        else if f2.defaultValue.truthy then f2.defaultValue else Val.s "")) m) f.fid
      = (if f.currentValue.truthy then f.currentValue
         else if f.defaultValue.truthy then f.defaultValue else Val.s "") := by
  induction fields generalizing f with
  | nil => cases hmem
  | cons f1 rest ih =>
    rw [List.map_cons] at hnd
    obtain ⟨hnotin, hndrest⟩ := List.nodup_cons.mp hnd
    intro m
    rcases List.mem_cons.mp hmem with rfl | hmem2
    · rw [List.foldl_cons, fvGet_seed_foldl_not_mem rest f.fid hnotin,
          fvGet_dictSet_same]
    · rw [List.foldl_cons]
      exact ih f hndrest hmem2 _

theorem fvGet_seedValues (fields : List FieldD) (f : FieldD)
    (hnd : (fields.map FieldD.fid).Nodup) (hmem : f ∈ fields) :
    fvGet (seedValues fields) f.fid
      = (if f.currentValue.truthy then f.currentValue
         else if f.defaultValue.truthy then f.defaultValue else Val.s "") :=
  fvGet_seed_foldl fields f hnd hmem []

theorem fvGet_overlay_no_hit (fields : List FieldD) (ups : List Update) (k : String)
    (h : ∀ u ∈ ups, u.uid ≠ k) :
    ∀ m, fvGet (overlayUpdates m fields ups) k = fvGet m k := by
  induction ups with
  | nil => intro m; rfl
  | cons u rest ih =>
    intro m
    rw [overlayUpdates, List.foldl_cons, ← overlayUpdates,
        ih (fun u2 h2 => h u2 (by simp [h2]))]
    by_cases hm : listHasStr (fields.map FieldD.fid) u.uid = true
    · rw [if_pos hm]
      exact fvGet_dictSet_other m u.uid u.value k (fun he => (h u (by simp)) he.symm)
    · rw [if_neg hm]

theorem fvGet_overlay_last_hit (fields : List FieldD) (l1 : List Update)
    (u : Update) (l2 : List Update) (k : String) (hu : u.uid = k)
    (hmem : listHasStr (fields.map FieldD.fid) k = true)
    (h2 : ∀ u2 ∈ l2, u2.uid ≠ k) :
    ∀ m, fvGet (overlayUpdates m fields (l1 ++ u :: l2)) k = u.value := by
  induction l1 with
  | nil =>
    intro m
    rw [List.nil_append, overlayUpdates, List.foldl_cons, ← overlayUpdates,
        fvGet_overlay_no_hit fields l2 k h2, if_pos (by rw [hu]; exact hmem)]
    rw [hu, fvGet_dictSet_same]
  | cons u1 rest ih =>
    intro m
    rw [List.cons_append, overlayUpdates, List.foldl_cons, ← overlayUpdates, ih]

/-- C10: value seeding uses Python or-truthiness: a falsy currentValue
falls back to defaultValue and then to the empty string, the last matching
update entry overwrites the seeded value verbatim, and a checkbox with
currentValue False and defaultValue True seeds True when no update names
it. -/
theorem seeding_truthiness_rule :
    (∀ (fields : List FieldD) (f : FieldD) (ups : List Update),
       (fields.map FieldD.fid).Nodup → f ∈ fields →
       f.currentValue.truthy = false →
       (∀ u ∈ ups, u.uid ≠ f.fid) →
       fvGet (overlayUpdates (seedValues fields) fields ups) f.fid
         = (if f.defaultValue.truthy then f.defaultValue else Val.s ""))
  ∧ (∀ (fields : List FieldD) (f : FieldD) (l1 : List Update) (u : Update)
       (l2 : List Update),
       (fields.map FieldD.fid).Nodup → f ∈ fields → u.uid = f.fid →
       (∀ u2 ∈ l2, u2.uid ≠ f.fid) →
       fvGet (overlayUpdates (seedValues fields) fields (l1 ++ u :: l2)) f.fid
         = u.value)
  ∧ (∀ (fields : List FieldD) (f : FieldD) (ups : List Update),
       (fields.map FieldD.fid).Nodup → f ∈ fields →
       f.currentValue = Val.b false → f.defaultValue = Val.b true →
       (∀ u ∈ ups, u.uid ≠ f.fid) →
       fvGet (overlayUpdates (seedValues fields) fields ups) f.fid = Val.b true) := by
  refine ⟨?_, ?_, ?_⟩
  · intro fields f ups hnd hmem hcv hups
    rw [fvGet_overlay_no_hit fields ups f.fid hups,
        fvGet_seedValues fields f hnd hmem, hcv]
    simp
  · intro fields f l1 u l2 hnd hmem hu h2
    exact fvGet_overlay_last_hit fields l1 u l2 f.fid hu
      (listHasStr_of_mem (List.mem_map_of_mem FieldD.fid hmem)) h2 _
  · intro fields f ups hnd hmem hcv hdv hups
    rw [fvGet_overlay_no_hit fields ups f.fid hups,
        fvGet_seedValues fields f hnd hmem, hcv, hdv]
    rfl

/-- A checkbox field with a falsy stored current value and truthy default. -/
def cbFieldW : FieldD :=
  { fid := "cb", name := "Cb", ftype := "checkbox", svgElementId := "cb.checkbox",
    options := [], defaultValue := Val.b true, currentValue := Val.b false,
    isTrackingId := false, trackingRole := Option.none, maxVal := Option.none,
    dependsOn := Option.none, link := Option.none }

theorem seeding_truthiness_rule_witness :
    fvGet (overlayUpdates (seedValues [cbFieldW]) [cbFieldW] []) "cb" = Val.b true
    ∧ fvGet (overlayUpdates (seedValues [cbFieldW]) [cbFieldW]
        ([] ++ (⟨"cb", Val.s "x"⟩ : Update) :: [])) "cb" = Val.s "x" := by
  constructor
  · exact seeding_truthiness_rule.2.2 [cbFieldW] cbFieldW [] (by decide) (by decide)
      (by decide) (by decide) (by decide)
  · exact seeding_truthiness_rule.2.1 [cbFieldW] cbFieldW [] ⟨"cb", Val.s "x"⟩ []
      (by decide) (by decide) (by decide) (by decide)

/-
Watermark engine embedding (api/watermark.py, class WaterMark). Python runs
the geometry in IEEE floats; the embedding computes in exact rationals. All
constants of the source are decimal literals, so they are exact here, and
every comparison and truncation the source performs is mirrored on exact
values (float rounding could only shift a comparison that lands within one
ulp of a boundary; no claim depends on such a boundary case). Q is an
unnormalised fraction type whose arithmetic reduces in the kernel; Q.val
interprets it in the rationals for the proofs.
-/

/-- An unnormalised fraction with a positive denominator. -/
structure Q where
  n : Int
  d : Int
  hd : 0 < d

/-- Embeds an integer. -/
def Q.ofInt (k : Int) : Q := ⟨k, 1, one_pos⟩

/-- The decimal literal n / 10^k. -/
def qDec (n : Int) (k : Nat) : Q := ⟨n, 10 ^ k, by positivity⟩

/-- Addition. -/
def Q.add (a b : Q) : Q := ⟨a.n * b.d + b.n * a.d, a.d * b.d, mul_pos a.hd b.hd⟩

/-- Subtraction. -/
def Q.sub (a b : Q) : Q := ⟨a.n * b.d - b.n * a.d, a.d * b.d, mul_pos a.hd b.hd⟩

/-- Multiplication. -/
def Q.mul (a b : Q) : Q := ⟨a.n * b.n, a.d * b.d, mul_pos a.hd b.hd⟩

/-- Division; a zero divisor yields zero here, while Python raises
ZeroDivisionError (the branch is unreachable in every theorem below). -/
def Q.div (a b : Q) : Q :=
  if h2 : 0 < b.n then ⟨a.n * b.d, a.d * b.n, mul_pos a.hd h2⟩
  else if h3 : b.n < 0 then ⟨-(a.n * b.d), a.d * (-b.n), mul_pos a.hd (by omega)⟩
  else ⟨0, 1, one_pos⟩

/-- Comparison. -/
def Q.le (a b : Q) : Prop := a.n * b.d ≤ b.n * a.d

/-- Strict comparison. -/
def Q.lt (a b : Q) : Prop := a.n * b.d < b.n * a.d

instance (a b : Q) : Decidable (Q.le a b) := Int.decLe (a.n * b.d) (b.n * a.d)

instance (a b : Q) : Decidable (Q.lt a b) := Int.decLt (a.n * b.d) (b.n * a.d)

/-- Python max on two numbers: the first argument wins ties. -/
def Q.pyMax (a b : Q) : Q := if Q.lt a b then b else a

/-- Python min on two numbers: the first argument wins ties. -/
def Q.pyMin (a b : Q) : Q := if Q.lt b a then b else a

/-- Python int() truncation toward zero. -/
def Q.pyInt (q : Q) : Int :=
  if 0 ≤ q.n then q.n.ediv q.d else -((-q.n).ediv q.d)

/-- Interpretation into the rationals. -/
def Q.val (q : Q) : ℚ := (q.n : ℚ) / (q.d : ℚ)

theorem Q.d_ne (q : Q) : ((q.d : ℚ)) ≠ 0 := by
  exact_mod_cast (ne_of_gt q.hd)

theorem Q.val_ofInt (k : Int) : (Q.ofInt k).val = (k : ℚ) := by
  simp [Q.ofInt, Q.val]

theorem Q.val_qDec (n : Int) (k : Nat) : (qDec n k).val = (n : ℚ) / (10 ^ k : ℚ) := by
  simp [qDec, Q.val]

theorem Q.val_add (a b : Q) : (a.add b).val = a.val + b.val := by
  unfold Q.add Q.val
  have ha := a.d_ne
  have hb := b.d_ne
  push_cast
  field_simp

theorem Q.val_sub (a b : Q) : (a.sub b).val = a.val - b.val := by
  unfold Q.sub Q.val
  have ha := a.d_ne
  have hb := b.d_ne
  push_cast
  field_simp
  ring

theorem Q.val_mul (a b : Q) : (a.mul b).val = a.val * b.val := by
  unfold Q.mul Q.val
  have ha := a.d_ne
  have hb := b.d_ne
  push_cast
  field_simp

theorem Q.val_div (a b : Q) : (a.div b).val = a.val / b.val := by
  unfold Q.div Q.val
  have ha := a.d_ne
  have hb := b.d_ne
  by_cases h2 : 0 < b.n
  · rw [dif_pos h2]
    have hbn : ((b.n : ℚ)) ≠ 0 := by exact_mod_cast (ne_of_gt h2)
    push_cast
    rw [div_div_div_eq]
  · rw [dif_neg h2]
    by_cases h3 : b.n < 0
    · rw [dif_pos h3]
      have hbn : ((b.n : ℚ)) ≠ 0 := by exact_mod_cast (ne_of_lt h3)
      push_cast
      rw [div_div_div_eq]
      field_simp
    · rw [dif_neg h3]
      have hbz : b.n = 0 := by omega
      simp [hbz]

theorem Q.le_iff (a b : Q) : Q.le a b ↔ a.val ≤ b.val := by
  unfold Q.le Q.val
  rw [div_le_div_iff (by exact_mod_cast a.hd) (by exact_mod_cast b.hd)]
  constructor
  · intro h; exact_mod_cast h
  · intro h; exact_mod_cast h

theorem Q.lt_iff (a b : Q) : Q.lt a b ↔ a.val < b.val := by
  unfold Q.lt Q.val
  rw [div_lt_div_iff (by exact_mod_cast a.hd) (by exact_mod_cast b.hd)]
  constructor
  · intro h; exact_mod_cast h
  · intro h; exact_mod_cast h

theorem Q.val_pyMax (a b : Q) : (Q.pyMax a b).val = max a.val b.val := by
  unfold Q.pyMax
  by_cases h : Q.lt a b
  · rw [if_pos h]
    exact (max_eq_right (le_of_lt ((Q.lt_iff a b).mp h))).symm
  · rw [if_neg h]
    have : b.val ≤ a.val := by
      by_contra hc
      exact h ((Q.lt_iff a b).mpr (lt_of_not_le hc))
    exact (max_eq_left this).symm

theorem Q.val_pyMin (a b : Q) : (Q.pyMin a b).val = min a.val b.val := by
  unfold Q.pyMin
  by_cases h : Q.lt b a
  · rw [if_pos h]
    exact (min_eq_right (le_of_lt ((Q.lt_iff b a).mp h))).symm
  · rw [if_neg h]
    have : a.val ≤ b.val := by
      by_contra hc
      exact h ((Q.lt_iff b a).mpr (lt_of_not_le hc))
    exact (min_eq_left this).symm

theorem Q.pyInt_le_val (q : Q) (h : 1 ≤ q.pyInt) : (q.pyInt : ℚ) ≤ q.val := by
  unfold Q.pyInt at *
  by_cases hn : 0 ≤ q.n
  · rw [if_pos hn] at *
    have hmul : q.n.ediv q.d * q.d ≤ q.n := Int.ediv_mul_le q.n (ne_of_gt q.hd)
    unfold Q.val
    rw [le_div_iff (by exact_mod_cast q.hd)]
    exact_mod_cast hmul
  · rw [if_neg hn] at h
    exfalso
    have : 0 ≤ (-q.n).ediv q.d := Int.ediv_nonneg (by omega) (le_of_lt q.hd)
    omega

/-- Newton iteration step for integer square roots; fuel-bounded. -/
def sqrtIter : Nat → Nat → Nat → Nat
  | 0, _, x => x
  | f + 1, n, x =>
    let y := (x + n / x) / 2
    if y < x then sqrtIter f n y else x

/-- Integer square root (floor of the real square root). -/
def isqrtNat (n : Nat) : Nat := if n ≤ 1 then n else sqrtIter n n n

/-- Python int(x ** 0.5) for a nonnegative x: the floor of the square root,
which equals the integer square root of the floor of x. A negative x makes
Python raise (complex result fed to int()); that branch is unreachable in
the claims and yields 0 here. -/
def isqrtQ (q : Q) : Int :=
  if 0 ≤ q.n then Int.ofNat (isqrtNat (q.n.toNat / q.d.toNat)) else 0

/-- The watermark count tiers of add_watermark lines 17-33, already capped
at 400. -/
def wmCount (w h : Q) : Int :=
  let area := w.mul h
  let wc0 : Int :=
    if Q.lt area (Q.ofInt 30000) then max 12 ((area.div (Q.ofInt 2500)).pyInt)
    else if Q.lt area (Q.ofInt 80000) then max 18 ((area.div (Q.ofInt 2000)).pyInt)
    else if Q.lt area (Q.ofInt 200000) then max 30 ((area.div (Q.ofInt 2500)).pyInt)
    else if Q.lt area (Q.ofInt 500000) then max 60 ((area.div (Q.ofInt 3000)).pyInt)
    else if Q.lt area (Q.ofInt 1000000) then max 100 ((area.div (Q.ofInt 4000)).pyInt)
    else if Q.lt area (Q.ofInt 2000000) then max 150 ((area.div (Q.ofInt 5000)).pyInt)
    else max 200 ((area.div (Q.ofInt 6000)).pyInt)
  min wc0 400

/-- font_size = max(12, min(60, int(((width + height) / 2) / 15))). -/
def wmFont (w h : Q) : Int :=
  max 12 (min 60 ((((w.add h).div (Q.ofInt 2)).div (Q.ofInt 15)).pyInt))

/-- text_width = font_size * 0.65 * 13. -/
def wmTextW (w h : Q) : Q :=
  ((Q.ofInt (wmFont w h)).mul (qDec 65 2)).mul (Q.ofInt 13)

/-- text_height = font_size * 1.2. -/
def wmTextH (w h : Q) : Q := (Q.ofInt (wmFont w h)).mul (qDec 12 1)

/-- cos_angle = sin_angle = abs(0.70710678118). -/
def wmCosA : Q := qDec 70710678118 11

/-- watermark_bbox_width = text_width * cos_angle + text_height * sin_angle. -/
def wmBbW (w h : Q) : Q :=
  ((wmTextW w h).mul wmCosA).add ((wmTextH w h).mul wmCosA)

/-- watermark_bbox_height = text_width * sin_angle + text_height * cos_angle. -/
def wmBbH (w h : Q) : Q :=
  ((wmTextW w h).mul wmCosA).add ((wmTextH w h).mul wmCosA)

/-- pixel_buffer = max(5, font_size * 0.1). -/
def wmBuffer (w h : Q) : Q :=
  Q.pyMax (Q.ofInt 5) ((Q.ofInt (wmFont w h)).mul (qDec 1 1))

/-- min_spacing_x after both lines 64 and 71:
max(bbox_width * 1.1, bbox_width + pixel_buffer). -/
def wmMsx (w h : Q) : Q :=
  Q.pyMax ((wmBbW w h).mul (qDec 11 1)) ((wmBbW w h).add (wmBuffer w h))

/-- min_spacing_y after both lines 65 and 72. -/
def wmMsy (w h : Q) : Q :=
  Q.pyMax ((wmBbH w h).mul (qDec 11 1)) ((wmBbH w h).add (wmBuffer w h))

/-- available_width = width * (1 - 0.01 - 0.05). -/
def wmAw (w h : Q) : Q := w.mul (((Q.ofInt 1).sub (qDec 1 2)).sub (qDec 5 2))

/-- available_height = height * (1 - 0.05 - 0.05). -/
def wmAh (w h : Q) : Q := h.mul (((Q.ofInt 1).sub (qDec 5 2)).sub (qDec 5 2))

/-- max_cols = max(1, int(available_width / min_spacing_x)). -/
def wmMaxCols (w h : Q) : Nat :=
  (max 1 (((wmAw w h).div (wmMsx w h)).pyInt)).toNat

/-- max_rows = max(1, int(available_height / min_spacing_y)). -/
def wmMaxRows (w h : Q) : Nat :=
  (max 1 (((wmAh w h).div (wmMsy w h)).pyInt)).toNat

/-- aspect_ratio = width / height if height > 0 else 1. -/
def wmAspect (w h : Q) : Q :=
  if Q.lt (Q.ofInt 0) h then w.div h else Q.ofInt 1

/-- The grid-growing while loop of lines 103-105 (and its symmetric twin of
lines 115-117, called with the roles of the coordinates swapped). The first
component is the incremented one, the second is recomputed as
max(1, ceil(wc / first)). Fuel maxC suffices since each pass increments the
first component and the loop exits once it reaches maxC. -/
def growGrid (maxC wc : Nat) : Nat → Nat → Nat → Nat × Nat
  | 0, ic, ir => (ic, ir)
  | f + 1, ic, ir =>
    if ic < maxC ∧ ic * ir < wc then
      growGrid maxC wc f (ic + 1) (max 1 ((wc + (ic + 1) - 1) / (ic + 1)))
    else (ic, ir)

/-- The wide-or-square branch of lines 96-108: start from
sqrt(count * aspect) columns, grow, then clamp. -/
def wmGridWide (w h : Q) : Nat × Nat :=
  let wc := (wmCount w h).toNat
  let maxC := wmMaxCols w h
  let ic0 := min maxC (max 1 (isqrtQ ((Q.ofInt (wmCount w h)).mul (wmAspect w h)))).toNat
  let ir0 := max 1 ((wc + ic0 - 1) / ic0)
  let g := growGrid maxC wc maxC ic0 ir0
  (min g.1 maxC, min g.2 (wmMaxRows w h))

/-- The tall branch of lines 109-120: the same computation with the roles
of rows and columns swapped, and the initial guess sqrt(count / aspect). -/
def wmGridTall (w h : Q) : Nat × Nat :=
  let wc := (wmCount w h).toNat
  let maxR := wmMaxRows w h
  let ir0 := min maxR (max 1 (isqrtQ ((Q.ofInt (wmCount w h)).div (wmAspect w h)))).toNat
  let ic0 := max 1 ((wc + ir0 - 1) / ir0)
  let g := growGrid maxR wc maxR ir0 ic0
  (min g.2 (wmMaxCols w h), min g.1 maxR)

/-- The (cols, rows) pair computed by lines 96-120. -/
def wmGrid (w h : Q) : Nat × Nat :=
  if Q.le (Q.ofInt 1) (wmAspect w h) then wmGridWide w h else wmGridTall w h

/-- cols. -/
def wmCols (w h : Q) : Nat := (wmGrid w h).1

/-- rows. -/
def wmRows (w h : Q) : Nat := (wmGrid w h).2

/-- final_watermark_count = min(watermark_count, cols * rows). -/
def wmFinalCount (w h : Q) : Nat :=
  min (wmCount w h).toNat (wmCols w h * wmRows w h)

/-- actual_spacing_x of lines 128-138. -/
def wmSx (w h : Q) : Q :=
  let cols := wmCols w h
  if 1 < cols then
    if Q.le ((Q.ofInt ((cols : Int) - 1)).mul (wmMsx w h)) (wmAw w h) then wmMsx w h
    else (wmAw w h).div (Q.ofInt ((cols : Int) - 1))
  else Q.ofInt 0

/-- actual_spacing_y of lines 140-150. -/
def wmSy (w h : Q) : Q :=
  let rows := wmRows w h
  if 1 < rows then
    if Q.le ((Q.ofInt ((rows : Int) - 1)).mul (wmMsy w h)) (wmAh w h) then wmMsy w h
    else (wmAh w h).div (Q.ofInt ((rows : Int) - 1))
  else Q.ofInt 0

/-- x_positions[c] of lines 154-164: both branches share the same base
width * 0.01 + bbox_width / 2; for a single column only index 0 exists. -/
def wmXPos (w h : Q) (c : Nat) : Q :=
  let base := (w.mul (qDec 1 2)).add ((wmBbW w h).div (Q.ofInt 2))
  if wmCols w h = 1 then base
  else base.add ((Q.ofInt c).mul (wmSx w h))

/-- y_positions[r] of lines 168-177. -/
def wmYPos (w h : Q) (r : Nat) : Q :=
  if wmRows w h = 1 then h.div (Q.ofInt 2)
  else
    ((h.sub ((Q.ofInt ((wmRows w h : Int) - 1)).mul (wmSy w h))).div (Q.ofInt 2)).add
      ((Q.ofInt r).mul (wmSy w h))

/-- The (x, y) position for grid cell (row, col), including the diagonal
shear of lines 197-204. -/
def wmPos (w h : Q) (rc : Nat × Nat) : Q × Q :=
  let x0 := wmXPos w h rc.2
  let x :=
    if 1 < wmCols w h ∧ 1 < wmRows w h then
      x0.add ((((wmSx w h).mul (qDec 3 1)).mul (Q.ofInt rc.1)).div
        (Q.ofInt (max 1 ((wmRows w h : Int) - 1))))
    else x0
  (x, wmYPos w h rc.1)

/-- The bounds check of line 211: true when the position is discarded. -/
def wmDrop (w h : Q) (p : Q × Q) : Bool :=
  decide (Q.lt p.1 ((wmBbW w h).div (Q.ofInt 2))) ||
  decide (Q.lt (w.sub ((wmBbW w h).div (Q.ofInt 2))) p.1) ||
  decide (Q.lt p.2 ((wmBbH w h).div (Q.ofInt 2))) ||
  decide (Q.lt (h.sub ((wmBbH w h).div (Q.ofInt 2))) p.2)

/-- The row-major traversal order of the nested loops of lines 185-186. -/
def wmCells (w h : Q) : List (Nat × Nat) :=
  (List.range (wmRows w h * wmCols w h)).map
    (fun k => (k / wmCols w h, k % wmCols w h))

/-- The emitted positions: traverse the grid in row-major order, skip the
out-of-bounds cells (continue at line 212), and stop once
final_watermark_count positions have been emitted (the index only advances
on append, so the cap applies after the filter). -/
def wmPositions (w h : Q) : List (Q × Q) :=
  (((wmCells w h).map (wmPos w h)).filter (fun p => !wmDrop w h p)).take
    (wmFinalCount w h)

theorem wmFont_ge (w h : Q) : (12 : Int) ≤ wmFont w h := by
  unfold wmFont
  exact le_max_left _ _

theorem wmBbW_val_pos (w h : Q) : 0 < (wmBbW w h).val := by
  have hf : (12 : ℚ) ≤ ((wmFont w h : Int) : ℚ) := by exact_mod_cast wmFont_ge w h
  unfold wmBbW wmTextW wmTextH wmCosA
  simp only [Q.val_add, Q.val_mul, Q.val_ofInt, Q.val_qDec]
  norm_num
  nlinarith [hf]

theorem wmBbH_eq_bbW (w h : Q) : wmBbH w h = wmBbW w h := rfl

theorem wmBuffer_ge (w h : Q) : (5 : ℚ) ≤ (wmBuffer w h).val := by
  unfold wmBuffer
  rw [Q.val_pyMax, Q.val_ofInt]
  have : ((5 : Int) : ℚ) = (5 : ℚ) := by norm_num
  rw [this]
  exact le_max_left _ _

theorem wmMsx_ge (w h : Q) :
    (wmBbW w h).val + (wmBuffer w h).val ≤ (wmMsx w h).val := by
  unfold wmMsx
  rw [Q.val_pyMax, Q.val_add]
  exact le_max_right _ _

theorem wmMsy_ge (w h : Q) :
    (wmBbH w h).val + (wmBuffer w h).val ≤ (wmMsy w h).val := by
  unfold wmMsy
  rw [Q.val_pyMax, Q.val_add]
  exact le_max_right _ _

theorem wmMsx_val_pos (w h : Q) : 0 < (wmMsx w h).val := by
  have h1 := wmBbW_val_pos w h
  have h2 := wmBuffer_ge w h
  have h3 := wmMsx_ge w h
  linarith

theorem wmMsy_val_pos (w h : Q) : 0 < (wmMsy w h).val := by
  have h1 := wmBbW_val_pos w h
  have h2 := wmBuffer_ge w h
  have h3 := wmMsy_ge w h
  rw [wmBbH_eq_bbW] at h3
  linarith

theorem growGrid_fst_ge (maxC wc : Nat) :
    ∀ (f ic ir : Nat), ic ≤ (growGrid maxC wc f ic ir).1 := by
  intro f
  induction f with
  | zero => intro ic ir; exact le_refl _
  | succ f ih =>
    intro ic ir
    rw [show growGrid maxC wc (f + 1) ic ir
        = (if ic < maxC ∧ ic * ir < wc then
            growGrid maxC wc f (ic + 1) (max 1 ((wc + (ic + 1) - 1) / (ic + 1)))
          else (ic, ir)) from rfl]
    split
    · exact le_trans (Nat.le_succ ic) (ih (ic + 1) _)
    · exact le_refl _

theorem growGrid_snd_ge_one (maxC wc : Nat) :
    ∀ (f ic ir : Nat), 1 ≤ ir → 1 ≤ (growGrid maxC wc f ic ir).2 := by
  intro f
  induction f with
  | zero => intro ic ir hir; exact hir
  | succ f ih =>
    intro ic ir hir
    rw [show growGrid maxC wc (f + 1) ic ir
        = (if ic < maxC ∧ ic * ir < wc then
            growGrid maxC wc f (ic + 1) (max 1 ((wc + (ic + 1) - 1) / (ic + 1)))
          else (ic, ir)) from rfl]
    split
    · exact ih (ic + 1) _ (le_max_left 1 _)
    · exact hir

theorem wmMaxCols_ge_one (w h : Q) : 1 ≤ wmMaxCols w h := by
  unfold wmMaxCols
  have h1 : (1 : Int) ≤ max 1 (((wmAw w h).div (wmMsx w h)).pyInt) := le_max_left _ _
  omega

theorem wmMaxRows_ge_one (w h : Q) : 1 ≤ wmMaxRows w h := by
  unfold wmMaxRows
  have h1 : (1 : Int) ≤ max 1 (((wmAh w h).div (wmMsy w h)).pyInt) := le_max_left _ _
  omega

theorem wmGridWide_fst_ge_one (w h : Q) : 1 ≤ (wmGridWide w h).1 := by
  unfold wmGridWide
  dsimp only
  refine le_min (le_trans ?_ (growGrid_fst_ge _ _ _ _ _)) (wmMaxCols_ge_one w h)
  refine le_min (wmMaxCols_ge_one w h) ?_
  have h1 : (1 : Int) ≤ max 1 (isqrtQ ((Q.ofInt (wmCount w h)).mul (wmAspect w h))) :=
    le_max_left _ _
  omega

theorem wmGridTall_fst_ge_one (w h : Q) : 1 ≤ (wmGridTall w h).1 := by
  unfold wmGridTall
  dsimp only
  refine le_min ?_ (wmMaxCols_ge_one w h)
  exact growGrid_snd_ge_one _ _ _ _ _ (le_max_left 1 _)

theorem wmGridWide_snd_ge_one (w h : Q) : 1 ≤ (wmGridWide w h).2 := by
  unfold wmGridWide
  dsimp only
  refine le_min ?_ (wmMaxRows_ge_one w h)
  exact growGrid_snd_ge_one _ _ _ _ _ (le_max_left 1 _)

theorem wmGridTall_snd_ge_one (w h : Q) : 1 ≤ (wmGridTall w h).2 := by
  unfold wmGridTall
  dsimp only
  refine le_min (le_trans ?_ (growGrid_fst_ge _ _ _ _ _)) (wmMaxRows_ge_one w h)
  refine le_min (wmMaxRows_ge_one w h) ?_
  have h1 : (1 : Int) ≤ max 1 (isqrtQ ((Q.ofInt (wmCount w h)).div (wmAspect w h))) :=
    le_max_left _ _
  omega

theorem wmCols_ge_one (w h : Q) : 1 ≤ wmCols w h := by
  unfold wmCols wmGrid
  split
  · exact wmGridWide_fst_ge_one w h
  · exact wmGridTall_fst_ge_one w h

theorem wmRows_ge_one (w h : Q) : 1 ≤ wmRows w h := by
  unfold wmRows wmGrid
  split
  · exact wmGridWide_snd_ge_one w h
  · exact wmGridTall_snd_ge_one w h

theorem wmCols_le_max (w h : Q) : wmCols w h ≤ wmMaxCols w h := by
  unfold wmCols wmGrid
  split
  · unfold wmGridWide; dsimp only; exact min_le_right _ _
  · unfold wmGridTall; dsimp only; exact min_le_right _ _

theorem wmRows_le_max (w h : Q) : wmRows w h ≤ wmMaxRows w h := by
  unfold wmRows wmGrid
  split
  · unfold wmGridWide; dsimp only; exact min_le_right _ _
  · unfold wmGridTall; dsimp only; exact min_le_right _ _

theorem maxCols_spacing (w h : Q) (hm : 2 ≤ wmMaxCols w h) :
    ((wmMaxCols w h : Nat) : ℚ) * (wmMsx w h).val ≤ (wmAw w h).val := by
  unfold wmMaxCols at hm ⊢
  rcases le_or_lt (((wmAw w h).div (wmMsx w h)).pyInt) 1 with h1 | h1
  · exfalso
    rw [max_eq_left h1] at hm
    omega
  · have hmax : max 1 (((wmAw w h).div (wmMsx w h)).pyInt)
        = ((wmAw w h).div (wmMsx w h)).pyInt := max_eq_right (by omega)
    rw [hmax]
    have hple : ((((wmAw w h).div (wmMsx w h)).pyInt : Int) : ℚ)
        ≤ ((wmAw w h).div (wmMsx w h)).val := Q.pyInt_le_val _ (by omega)
    rw [Q.val_div] at hple
    have hmsx : 0 < (wmMsx w h).val := wmMsx_val_pos w h
    rw [le_div_iff₀ hmsx] at hple
    have h0 : (0 : Int) ≤ ((wmAw w h).div (wmMsx w h)).pyInt := by omega
    have hnc : ((((wmAw w h).div (wmMsx w h)).pyInt).toNat : Int)
        = ((wmAw w h).div (wmMsx w h)).pyInt := Int.toNat_of_nonneg h0
    have hcast : (((((wmAw w h).div (wmMsx w h)).pyInt).toNat : Nat) : ℚ)
        = ((((wmAw w h).div (wmMsx w h)).pyInt : Int) : ℚ) := by
      exact_mod_cast hnc
    rw [hcast]
    exact hple

theorem maxRows_spacing (w h : Q) (hm : 2 ≤ wmMaxRows w h) :
    ((wmMaxRows w h : Nat) : ℚ) * (wmMsy w h).val ≤ (wmAh w h).val := by
  unfold wmMaxRows at hm ⊢
  rcases le_or_lt (((wmAh w h).div (wmMsy w h)).pyInt) 1 with h1 | h1
  · exfalso
    rw [max_eq_left h1] at hm
    omega
  · have hmax : max 1 (((wmAh w h).div (wmMsy w h)).pyInt)
        = ((wmAh w h).div (wmMsy w h)).pyInt := max_eq_right (by omega)
    rw [hmax]
    have hple : ((((wmAh w h).div (wmMsy w h)).pyInt : Int) : ℚ)
        ≤ ((wmAh w h).div (wmMsy w h)).val := Q.pyInt_le_val _ (by omega)
    rw [Q.val_div] at hple
    have hmsy : 0 < (wmMsy w h).val := wmMsy_val_pos w h
    rw [le_div_iff₀ hmsy] at hple
    have h0 : (0 : Int) ≤ ((wmAh w h).div (wmMsy w h)).pyInt := by omega
    have hnc : ((((wmAh w h).div (wmMsy w h)).pyInt).toNat : Int)
        = ((wmAh w h).div (wmMsy w h)).pyInt := Int.toNat_of_nonneg h0
    have hcast : (((((wmAh w h).div (wmMsy w h)).pyInt).toNat : Nat) : ℚ)
        = ((((wmAh w h).div (wmMsy w h)).pyInt : Int) : ℚ) := by
      exact_mod_cast hnc
    rw [hcast]
    exact hple

theorem wmSx_eq_msx (w h : Q) (hc : 2 ≤ wmCols w h) : wmSx w h = wmMsx w h := by
  unfold wmSx
  dsimp only
  rw [if_pos (show 1 < wmCols w h by omega)]
  have hle : Q.le ((Q.ofInt ((wmCols w h : Int) - 1)).mul (wmMsx w h)) (wmAw w h) := by
    rw [Q.le_iff, Q.val_mul, Q.val_ofInt]
    have hm2 : 2 ≤ wmMaxCols w h := le_trans hc (wmCols_le_max w h)
    have hsp := maxCols_spacing w h hm2
    have hcle : ((wmCols w h : Nat) : ℚ) ≤ ((wmMaxCols w h : Nat) : ℚ) := by
      exact_mod_cast wmCols_le_max w h
    have hmsx : 0 < (wmMsx w h).val := wmMsx_val_pos w h
    have hmul : ((wmCols w h : Nat) : ℚ) * (wmMsx w h).val
        ≤ ((wmMaxCols w h : Nat) : ℚ) * (wmMsx w h).val :=
      mul_le_mul_of_nonneg_right hcle (le_of_lt hmsx)
    push_cast
    nlinarith [hsp, hmul, hmsx]
  rw [if_pos hle]

theorem wmSy_eq_msy (w h : Q) (hr : 2 ≤ wmRows w h) : wmSy w h = wmMsy w h := by
  unfold wmSy
  dsimp only
  rw [if_pos (show 1 < wmRows w h by omega)]
  have hle : Q.le ((Q.ofInt ((wmRows w h : Int) - 1)).mul (wmMsy w h)) (wmAh w h) := by
    rw [Q.le_iff, Q.val_mul, Q.val_ofInt]
    have hm2 : 2 ≤ wmMaxRows w h := le_trans hr (wmRows_le_max w h)
    have hsp := maxRows_spacing w h hm2
    have hrle : ((wmRows w h : Nat) : ℚ) ≤ ((wmMaxRows w h : Nat) : ℚ) := by
      exact_mod_cast wmRows_le_max w h
    have hmsy : 0 < (wmMsy w h).val := wmMsy_val_pos w h
    have hmul : ((wmRows w h : Nat) : ℚ) * (wmMsy w h).val
        ≤ ((wmMaxRows w h : Nat) : ℚ) * (wmMsy w h).val :=
      mul_le_mul_of_nonneg_right hrle (le_of_lt hmsy)
    push_cast
    nlinarith [hsp, hmul, hmsy]
  rw [if_pos hle]

theorem wmXPos_diff (w h : Q) (c1 c2 : Nat) (hc : wmCols w h ≠ 1) :
    (wmXPos w h c2).val - (wmXPos w h c1).val = ((c2 : ℚ) - (c1 : ℚ)) * (wmSx w h).val := by
  unfold wmXPos
  dsimp only
  rw [if_neg hc, if_neg hc]
  simp only [Q.val_add, Q.val_mul, Q.val_div, Q.val_ofInt, Q.val_qDec]
  push_cast
  ring

theorem wmYPos_diff (w h : Q) (r1 r2 : Nat) (hr : wmRows w h ≠ 1) :
    (wmYPos w h r2).val - (wmYPos w h r1).val = ((r2 : ℚ) - (r1 : ℚ)) * (wmSy w h).val := by
  unfold wmYPos
  rw [if_neg hr, if_neg hr]
  simp only [Q.val_add, Q.val_sub, Q.val_mul, Q.val_div, Q.val_ofInt, Q.val_qDec]
  push_cast
  ring

theorem wmPos_snd (w h : Q) (rc : Nat × Nat) : (wmPos w h rc).2 = wmYPos w h rc.1 := rfl

theorem wmPos_x_same_row (w h : Q) (r c1 c2 : Nat) :
    (wmPos w h (r, c2)).1.val - (wmPos w h (r, c1)).1.val
      = (wmXPos w h c2).val - (wmXPos w h c1).val := by
  unfold wmPos
  dsimp only
  by_cases hcr : 1 < wmCols w h ∧ 1 < wmRows w h
  · rw [if_pos hcr, if_pos hcr, Q.val_add, Q.val_add]
    ring
  · rw [if_neg hcr, if_neg hcr]

/-- Two distinct cells of the row-major grid produce positions whose
axis-aligned bounding boxes do not overlap. -/
theorem wmSep (w h : Q) (k1 k2 : Nat) (h12 : k1 < k2)
    (hk2 : k2 < wmRows w h * wmCols w h) :
    ¬ (|(wmPos w h (k1 / wmCols w h, k1 % wmCols w h)).1.val
          - (wmPos w h (k2 / wmCols w h, k2 % wmCols w h)).1.val| < (wmBbW w h).val
        ∧ |(wmPos w h (k1 / wmCols w h, k1 % wmCols w h)).2.val
          - (wmPos w h (k2 / wmCols w h, k2 % wmCols w h)).2.val| < (wmBbH w h).val) := by
  have hc1 : 1 ≤ wmCols w h := wmCols_ge_one w h
  have hcpos : 0 < wmCols w h := hc1
  have hk2m : k2 < wmCols w h * wmRows w h := by rw [Nat.mul_comm]; exact hk2
  have hrlt : k2 / wmCols w h < wmRows w h := Nat.div_lt_of_lt_mul hk2m
  have hrle : k1 / wmCols w h ≤ k2 / wmCols w h := Nat.div_le_div_right (le_of_lt h12)
  rintro ⟨hx, hy⟩
  rcases eq_or_lt_of_le hrle with heq | hlt
  · -- same row: columns differ, horizontal separation
    have e1 := Nat.div_add_mod k1 (wmCols w h)
    have e2 := Nat.div_add_mod k2 (wmCols w h)
    have hclt : k1 % wmCols w h < k2 % wmCols w h := by
      rw [heq] at e1
      omega
    have hmod : k2 % wmCols w h < wmCols w h := Nat.mod_lt _ hcpos
    have hc2 : 2 ≤ wmCols w h := by omega
    rw [heq] at hx
    have hxd : (wmPos w h (k2 / wmCols w h, k2 % wmCols w h)).1.val
        - (wmPos w h (k2 / wmCols w h, k1 % wmCols w h)).1.val
        = (((k2 % wmCols w h : Nat) : ℚ) - ((k1 % wmCols w h : Nat) : ℚ)) * (wmSx w h).val := by
      rw [wmPos_x_same_row, wmXPos_diff w h _ _ (by omega)]
    rw [wmSx_eq_msx w h hc2] at hxd
    have hub : (5 : ℚ) ≤ (wmBuffer w h).val := wmBuffer_ge w h
    have hmge := wmMsx_ge w h
    have hbw := wmBbW_val_pos w h
    have hmpos := wmMsx_val_pos w h
    have hone : (1 : ℚ) ≤ ((k2 % wmCols w h : Nat) : ℚ) - ((k1 % wmCols w h : Nat) : ℚ) := by
      have h9 : ((k1 % wmCols w h : Nat) : ℚ) + 1 ≤ ((k2 % wmCols w h : Nat) : ℚ) := by
        exact_mod_cast hclt
      linarith
    have hsep : (wmMsx w h).val
        ≤ (wmPos w h (k2 / wmCols w h, k2 % wmCols w h)).1.val
          - (wmPos w h (k2 / wmCols w h, k1 % wmCols w h)).1.val := by
      rw [hxd]
      nlinarith [hone, hmpos]
    have habs : (wmPos w h (k2 / wmCols w h, k2 % wmCols w h)).1.val
        - (wmPos w h (k2 / wmCols w h, k1 % wmCols w h)).1.val
        ≤ |(wmPos w h (k2 / wmCols w h, k1 % wmCols w h)).1.val
          - (wmPos w h (k2 / wmCols w h, k2 % wmCols w h)).1.val| := by
      rw [abs_sub_comm]
      exact le_abs_self _
    linarith
  · -- different rows: vertical separation
    have hg : 0 < k2 / wmCols w h := lt_of_le_of_lt (Nat.zero_le _) hlt
    have hr2 : 2 ≤ wmRows w h := by omega
    rw [wmPos_snd, wmPos_snd] at hy
    have hyd := wmYPos_diff w h (k1 / wmCols w h) (k2 / wmCols w h) (by omega)
    rw [wmSy_eq_msy w h hr2] at hyd
    have hub : (5 : ℚ) ≤ (wmBuffer w h).val := wmBuffer_ge w h
    have hmge := wmMsy_ge w h
    rw [wmBbH_eq_bbW] at hmge
    have hbw := wmBbW_val_pos w h
    have hmpos := wmMsy_val_pos w h
    have hone : (1 : ℚ) ≤ ((k2 / wmCols w h : Nat) : ℚ) - ((k1 / wmCols w h : Nat) : ℚ) := by
      have h9 : ((k1 / wmCols w h : Nat) : ℚ) + 1 ≤ ((k2 / wmCols w h : Nat) : ℚ) := by
        exact_mod_cast hlt
      linarith
    have hsep : (wmMsy w h).val
        ≤ (wmYPos w h (k2 / wmCols w h)).val - (wmYPos w h (k1 / wmCols w h)).val := by
      rw [hyd]
      nlinarith [hone, hmpos]
    have habs : (wmYPos w h (k2 / wmCols w h)).val - (wmYPos w h (k1 / wmCols w h)).val
        ≤ |(wmYPos w h (k1 / wmCols w h)).val - (wmYPos w h (k2 / wmCols w h)).val| := by
      rw [abs_sub_comm]
      exact le_abs_self _
    rw [wmBbH_eq_bbW] at hy
    linarith

/-- C8: every emitted watermark position keeps its rotated bounding box
inside the 0..width by 0..height document rectangle, the axis-aligned
bounding boxes of two emitted positions never overlap, and the emitted list
is a sublist of the bound-checked grid candidates, so an out-of-bounds
candidate is dropped rather than clamped. -/
theorem watermark_grid_rule (w h : Q) :
    List.Forall (fun p : Q × Q =>
        0 ≤ p.1.val - (wmBbW w h).val / 2 ∧ p.1.val + (wmBbW w h).val / 2 ≤ w.val ∧
        0 ≤ p.2.val - (wmBbH w h).val / 2 ∧ p.2.val + (wmBbH w h).val / 2 ≤ h.val)
      (wmPositions w h)
    ∧ List.Pairwise (fun p q : Q × Q =>
        ¬ (|p.1.val - q.1.val| < (wmBbW w h).val ∧ |p.2.val - q.2.val| < (wmBbH w h).val))
      (wmPositions w h)
    ∧ (wmPositions w h).Sublist
        (((wmCells w h).map (wmPos w h)).filter (fun p => ! wmDrop w h p)) := by
  have hsubf : (wmPositions w h).Sublist
      (((wmCells w h).map (wmPos w h)).filter (fun p => ! wmDrop w h p)) := by
    unfold wmPositions
    exact List.take_sublist _ _
  refine ⟨?_, ?_, hsubf⟩
  · rw [List.forall_iff_forall_mem]
    intro p hp
    have hp' := hsubf.subset hp
    obtain ⟨hmem, hpass⟩ := List.mem_filter.mp hp'
    have hdropf : wmDrop w h p = false := by
      cases hq : wmDrop w h p
      · rfl
      · rw [hq] at hpass; exact absurd hpass (by simp)
    unfold wmDrop at hdropf
    simp only [Bool.or_eq_false_iff, decide_eq_false_iff_not] at hdropf
    obtain ⟨⟨⟨h1, h2⟩, h3⟩, h4⟩ := hdropf
    rw [Q.lt_iff] at h1 h2 h3 h4
    have e2 : ((wmBbW w h).div (Q.ofInt 2)).val = (wmBbW w h).val / 2 := by
      rw [Q.val_div, Q.val_ofInt]; norm_num
    have e3 : ((wmBbH w h).div (Q.ofInt 2)).val = (wmBbH w h).val / 2 := by
      rw [Q.val_div, Q.val_ofInt]; norm_num
    rw [e2] at h1
    rw [Q.val_sub, e2] at h2
    rw [e3] at h3
    rw [Q.val_sub, e3] at h4
    push_neg at h1 h2 h3 h4
    exact ⟨by linarith, by linarith, by linarith, by linarith⟩
  · refine List.Pairwise.sublist hsubf ?_
    refine List.Pairwise.sublist (List.filter_sublist _) ?_
    rw [List.pairwise_map]
    unfold wmCells
    rw [List.pairwise_map]
    refine List.Pairwise.imp_of_mem ?_ (List.pairwise_lt_range _)
    intro k1 k2 hm1 hm2 hlt
    exact wmSep w h k1 k2 hlt (List.mem_range.mp hm2)

/-- The numeric value of a list of known decimal digits. -/
def decDigsVal (l : List Char) : Nat :=
  l.foldl (fun a c => 10 * a + (c.toNat - 48)) 0

/-- Drops a case-sensitive literal from the head of a string, returning the
remainder on success. -/
def dropLit : List Char → List Char → Option (List Char)
  | [], s => some s
  | _ :: _, [] => Option.none
  | p :: ps, c :: cs => if c = p then dropLit ps cs else Option.none

/-- Matches the regex viewBox=["']([^"']+)["'] at the head of the input and
returns the captured group. The greedy character class is followed by a
quote the class excludes, so maximal munch is exactly the regex semantics. -/
def matchViewBoxAt (s : List Char) : Option (List Char) :=
  match dropLit "viewBox=".data s with
  | Option.none => Option.none
  | some s1 =>
    match s1 with
    | [] => Option.none
    | q1 :: s2 =>
      if q1 = '"' ∨ q1 = '\'' then
        let grp := s2.takeWhile (fun c => ¬(c = '"' ∨ c = '\''))
        match grp, s2.dropWhile (fun c => ¬(c = '"' ∨ c = '\'')) with
        | [], _ => Option.none
        | _, [] => Option.none
        | g, q2 :: _ => if q2 = '"' ∨ q2 = '\'' then some g else Option.none
      else Option.none

/-- re.search for the viewBox pattern: leftmost match wins. -/
def findViewBox : List Char → Option (List Char)
  | [] => Option.none
  | c :: rest =>
    match matchViewBoxAt (c :: rest) with
    | some g => some g
    | Option.none => findViewBox rest

/-- Matches lit["']([^"'px]+) at the head of the input (the width / height
attribute patterns of get_svg_size; no closing delimiter is required). -/
def matchAttrNumAt (lit : List Char) (s : List Char) : Option (List Char) :=
  match dropLit lit s with
  | Option.none => Option.none
  | some s1 =>
    match s1 with
    | [] => Option.none
    | q1 :: s2 =>
      if q1 = '"' ∨ q1 = '\'' then
        match s2.takeWhile (fun c => ¬(c = '"' ∨ c = '\'' ∨ c = 'p' ∨ c = 'x')) with
        | [] => Option.none
        | g => some g
      else Option.none

/-- re.search for a width= or height= attribute pattern. -/
def findAttrNum (lit : List Char) : List Char → Option (List Char)
  | [] => Option.none
  | c :: rest =>
    match matchAttrNumAt lit (c :: rest) with
    | some g => some g
    | Option.none => findAttrNum lit rest

/-- Parses an optional exponent sign and a digit run, for parseFloatQ. -/
def parseExpTail (r : List Char) : Option (Int × List Char) :=
  let p : Int × List Char :=
    match r with
    | '+' :: rr => (1, rr)
    | '-' :: rr => (-1, rr)
    | rr => (1, rr)
  let ds := p.2.takeWhile Char.isDigit
  if ds.isEmpty then Option.none
  else some (p.1 * (decDigsVal ds : Int), p.2.dropWhile Char.isDigit)

/-- Python float(str) restricted to finite decimal forms: optional sign,
digits with an optional fractional part (at least one digit overall), and an
optional exponent; the result is exact. Inputs float() rejects give none,
standing for the uncaught ValueError. The inf / nan words and underscore
grouping are not modelled; no claim exercises them. -/
def parseFloatQ (s : String) : Option Q :=
  let t0 := stripL s.data
  let sg : Int × List Char :=
    match t0 with
    | '+' :: r => (1, r)
    | '-' :: r => (-1, r)
    | r => (1, r)
  let ip := sg.2.takeWhile Char.isDigit
  let r1 := sg.2.dropWhile Char.isDigit
  let fr : List Char × List Char :=
    match r1 with
    | '.' :: r => (r.takeWhile Char.isDigit, r.dropWhile Char.isDigit)
    | r => ([], r)
  match (if ip.isEmpty && fr.1.isEmpty then Option.none else
      match fr.2 with
      | 'e' :: r => parseExpTail r
      | 'E' :: r => parseExpTail r
      | r => some (0, r) : Option (Int × List Char)) with
  | Option.none => Option.none
  | some (ex, rest) =>
    if !rest.isEmpty then Option.none
    else
      let mant : Int := sg.1 * (decDigsVal (ip ++ fr.1) : Int)
      let e : Int := ex - (fr.1.length : Int)
      if 0 ≤ e then some ⟨mant * 10 ^ e.toNat, 1, one_pos⟩
      else some ⟨mant, 10 ^ (-e).toNat, by positivity⟩

/-- The width / height fallback branch of get_svg_size lines 264-273:
defaults 400 and 300, overridden by parsed attribute values; an unparsable
value is an uncaught ValueError, modelled as none. -/
def sizeFromAttrs (svg : String) : Option (Q × Q) :=
  let wq : Option Q :=
    match findAttrNum "width=".data svg.data with
    | some g => parseFloatQ ⟨g⟩
    | Option.none => some (Q.ofInt 400)
  let hq : Option Q :=
    match findAttrNum "height=".data svg.data with
    | some g => parseFloatQ ⟨g⟩
    | Option.none => some (Q.ofInt 300)
  match wq, hq with
  | some a, some b => some (a, b)
  | _, _ => Option.none

/-- get_svg_size: the viewBox branch returns its third and fourth
whitespace-separated values when at least four are present; otherwise
control falls through to the attribute branch. -/
def WaterMark.get_svg_size (svg : String) : Option (Q × Q) :=
  match findViewBox svg.data with
  | some g =>
    let vals := splitWsAux g []
    if 4 ≤ vals.length then
      match parseFloatQ ⟨vals.getD 2 []⟩, parseFloatQ ⟨vals.getD 3 []⟩ with
      | some wq, some hq => some (wq, hq)
      | _, _ => Option.none
    else sizeFromAttrs svg
  | Option.none => sizeFromAttrs svg

/-- Serializes a coordinate for the marker f-string. Python prints the repr
of an IEEE float; this prints the exact fraction instead. The difference is
immaterial to the claims: the round-trip theorem uses an input whose
emitted-position list is empty, so no coordinate is ever rendered. -/
def qToStr (q : Q) : String :=
  if q.d = 1 then intToStr q.n else intToStr q.n ++ "/" ++ intToStr q.d

/-- One marker string of lines 215-219, with angle_degrees = -45. -/
def renderMark (fs : Int) (p : Q × Q) : String :=
  "<g transform=\"rotate(-45, " ++ qToStr p.1 ++ ", " ++ qToStr p.2 ++ ")\">"
    ++ "<text x=\"" ++ qToStr p.1 ++ "\" y=\"" ++ qToStr p.2
    ++ "\" fill=\"black\" font-size=\"" ++ intToStr fs
    ++ "\" pointer-events=\"none\">TEST DOCUMENT</text></g>"

/-- Python str.join with a newline separator. -/
def joinNl : List String → String
  | [] => ""
  | [x] => x
  | x :: y :: xs => x ++ "\n" ++ joinNl (y :: xs)

/-- add_watermark: returns the input unchanged when it lacks a closing svg
tag, and otherwise splices the newline-joined markers plus a newline before
every occurrence of the closing tag. A get_svg_size failure is an uncaught
ValueError, modelled as none. -/
def WaterMark.add_watermark (svg : String) : Option String :=
  if !containsSubL svg.data "</svg>".data then some svg
  else
    match WaterMark.get_svg_size svg with
    | Option.none => Option.none
    | some (wi, hi) =>
      let marks := (wmPositions wi hi).map (renderMark (wmFont wi hi))
      some (pyReplace svg "</svg>" (joinNl marks ++ "\n</svg>"))

/-- Drops a case-insensitive literal (given lowercased) from the head. -/
def ciDrop : List Char → List Char → Option (List Char)
  | [], s => some s
  | _ :: _, [] => Option.none
  | p :: ps, c :: cs => if c.toLower = p then ciDrop ps cs else Option.none

/-- Case-insensitive substring containment. -/
def containsCI : List Char → List Char → Bool
  | [], pat => pat.isEmpty
  | c :: rest, pat => (ciDrop pat (c :: rest)).isSome || containsCI rest pat

/-- Tries to match the watermark removal regex of lines 241-246 at the head
of the input, returning the remainder after the match. Each greedy piece is
followed by a character its class excludes, so maximal munch coincides with
the regex backtracking semantics; the text attribute section reduces to: the
non-gt run after the tag name starts with a whitespace character and
contains pointer-events="none" at some position past the first. -/
def wmMatchAt (s : List Char) : Option (List Char) :=
  match ciDrop "<g".data s with
  | Option.none => Option.none
  | some s1 =>
    if (s1.takeWhile pyWsChar).isEmpty then Option.none
    else
      match ciDrop "transform=\"rotate(".data (s1.dropWhile pyWsChar) with
      | Option.none => Option.none
      | some s3 =>
        if (s3.takeWhile (fun c => !(c = ')'))).isEmpty then Option.none
        else
          match ciDrop ")\">".data (s3.dropWhile (fun c => !(c = ')'))) with
          | Option.none => Option.none
          | some s5 =>
            match ciDrop "<text".data (s5.dropWhile pyWsChar) with
            | Option.none => Option.none
            | some s7 =>
              match s7.takeWhile (fun c => !(c = '>')),
                  s7.dropWhile (fun c => !(c = '>')) with
              | a :: arest, '>' :: s9 =>
                if pyWsChar a && containsCI arest "pointer-events=\"none\"".data then
                  match ciDrop "test document</text>".data s9 with
                  | Option.none => Option.none
                  | some s10 => ciDrop "</g>".data (s10.dropWhile pyWsChar)
                else Option.none
              | _, _ => Option.none

/-- re.sub with empty replacement: scan left to right, drop each
non-overlapping match, resume after it. A match consumes at least the two
tag characters, so fuel equal to the input length suffices. -/
def removeAllWm : Nat → List Char → List Char
  | 0, s => s
  | _ + 1, [] => []
  | f + 1, c :: rest =>
    match wmMatchAt (c :: rest) with
    | some s2 => removeAllWm f s2
    | Option.none => c :: removeAllWm f rest

/-- remove_watermark: unchanged when no closing tag, else the regex
substitution. -/
def WaterMark.remove_watermark (svg : String) : String :=
  if !containsSubL svg.data "</svg>".data then svg
  else ⟨removeAllWm svg.data.length svg.data⟩

/-- C1: the round trip is broken even on an input with a closing tag and no
pre-existing markers: the grid of a 1 by 1 viewBox emits no markers, yet
add_watermark still splices a bare newline before the closing tag, and
remove_watermark strips only whole marker groups, so remove(add(x)) keeps
the extra newline and differs from x. -/
theorem watermark_roundtrip_failure :
    WaterMark.remove_watermark "<svg viewBox=\"0 0 1 1\"></svg>"
        = "<svg viewBox=\"0 0 1 1\"></svg>"
      ∧ WaterMark.add_watermark "<svg viewBox=\"0 0 1 1\"></svg>"
        = some "<svg viewBox=\"0 0 1 1\">\n</svg>"
      ∧ WaterMark.remove_watermark "<svg viewBox=\"0 0 1 1\">\n</svg>"
        = "<svg viewBox=\"0 0 1 1\">\n</svg>"
      ∧ ("<svg viewBox=\"0 0 1 1\">\n</svg>" : String)
        ≠ "<svg viewBox=\"0 0 1 1\"></svg>" := by
  refine ⟨by decide, by decide, by decide, by decide⟩
